import Mathlib

/-!
Verification of the device-tree blob (DTB) parser against its specification.

This file gives a shallow embedding, in Lean, of the Rust sources of the
`device-tree` crate (files `src/parse.rs`, `src/map.rs`, `src/node_name.rs`,
`src/property.rs`, `src/dtb.rs` and the `src/node/` directory), and proves or
refutes the claims made by the crate's natural-language specification.

Conventions of the embedding:
* Machine integers are modelled as `Nat`; wrap-around is irrelevant because the
  Rust code only uses checked conversions, which are modelled explicitly.
* A byte buffer is a `List Nat` of byte values; a `u32` word is a `Nat` below
  `2 ^ 32` obtained by big-endian recombination of four bytes.
* Fallible Rust functions returning `Result`/`Option` become functions into
  `Except`/`Option`; a Rust `panic!`/`unwrap`/`unimplemented!` becomes the
  distinguished outcome `POut.crash`.
* General recursion (over raw trees and token streams) is made structural with
  an explicit fuel parameter; exhausting the fuel gives the distinguished
  outcome `POut.nofuel`, which is never produced when the fuel exceeds the
  recursion depth.  Theorems either quantify over the fuel or fix a fuel that
  is provably sufficient for the concrete input at hand.
-/

set_option maxRecDepth 40000

namespace DeviceTree

/-! ## Byte and word utilities -/

/-- Split a `u32` value into its four big-endian bytes
(`u32::to_be_bytes` in the Rust sources). -/
def byteSplit32 (v : Nat) : List Nat :=
  [v / 2 ^ 24 % 256, v / 2 ^ 16 % 256, v / 2 ^ 8 % 256, v % 256]

/-- Recombine four big-endian bytes into a `u32` value
(`u32::from_be_bytes` in the Rust sources). -/
def word32 (a b c d : Nat) : Nat :=
  ((a * 256 + b) * 256 + c) * 256 + d

/-- Big-endian decode of the first four bytes of a buffer. -/
def be32 : List Nat → Nat
  | a :: b :: c :: d :: _ => word32 a b c d
  | _ => 0

/-- Group a byte buffer into big-endian `u32` values, four bytes at a time;
a trailing partial group is dropped.  This models viewing a word-aligned
memory region as a `&[u32]` whose elements are decoded with `u32::from_be`. -/
def wordsOfBytes : List Nat → List Nat
  | a :: b :: c :: d :: rest => word32 a b c d :: wordsOfBytes rest
  | _ => []

/-- Flatten a list of `u32` values back into their big-endian bytes
(the view of a `U32ByteSlice` as a `&[u8]` in `src/parse.rs`). -/
def bytesOfWords (l : List Nat) : List Nat :=
  l.foldr (fun w acc => byteSplit32 w ++ acc) []

/-- The byte content before the first NUL byte of a buffer, or `none` when the
buffer holds no NUL byte (`CStr::from_bytes_until_nul`). -/
def cstrUntilNul (bytes : List Nat) : Option (List Nat) :=
  (bytes.findIdx? (· == 0)).map (fun i => bytes.take i)

/-- Parse a big-endian hexadecimal digit byte. -/
def hexDigit (b : Nat) : Option Nat :=
  if 48 ≤ b ∧ b ≤ 57 then some (b - 48)
  else if 97 ≤ b ∧ b ≤ 102 then some (b - 87)
  else if 65 ≤ b ∧ b ≤ 70 then some (b - 55)
  else none

/-- Parse an ASCII hexadecimal numeral into a `u64` value, failing on an empty
input, a non-hex-digit byte, or overflow of 64 bits
(`u64::from_str_radix(_, 16)` in `src/node_name.rs`; a leading `+` sign is
accepted by `from_str_radix` and therefore also here). -/
def hexParse (bytes : List Nat) : Option Nat :=
  let digits := match bytes with
    | 43 :: rest => rest
    | other => other
  match digits with
  | [] => none
  | _ =>
    digits.foldl
      (fun acc b =>
        match acc, hexDigit b with
        | some v, some d =>
          if v * 16 + d < 2 ^ 64 then some (v * 16 + d) else none
        | _, _ => none)
      (some 0)

/-! ## Orderings

The Rust `Map` is keyed either by `&CStr` (compared as raw byte strings), by
`NameRef` (compared through the derived `Ord`, which orders the `Char` enum of
`src/node_name.rs` by variant declaration order), or by `u32`. -/

/-- Lexicographic comparison of two byte lists, mirroring slice `Ord`:
element-wise comparison with the shorter list winning ties. -/
def lexCompare : List Nat → List Nat → Ordering
  | [], [] => .eq
  | [], _ :: _ => .lt
  | _ :: _, [] => .gt
  | a :: as1, b :: bs1 =>
    match compare a b with
    | .eq => lexCompare as1 bs1
    | o => o

/-- Whether a byte is a valid node-name character
(`Char::is_valid` in `src/node_name.rs`): ASCII alphanumeric or one of
`,` `.` `_` `+` `-`. -/
def validNameChar (b : Nat) : Bool :=
  (48 ≤ b && b ≤ 57) || (97 ≤ b && b ≤ 122) || (65 ≤ b && b ≤ 90)
    || b == 44 || b == 46 || b == 95 || b == 43 || b == 45

/-- The rank of a node-name character in the declaration order of the `Char`
enum of `src/node_name.rs`: digits, then capitals, then lowercase, then
comma, period, underscore, plus sign, dash.  The derived `Ord` on `Char`
compares by this rank, not by byte value. -/
def charRank (b : Nat) : Nat :=
  if 48 ≤ b ∧ b ≤ 57 then b - 48
  else if 65 ≤ b ∧ b ≤ 90 then b - 55
  else if 97 ≤ b ∧ b ≤ 122 then b - 61
  else if b = 44 then 62
  else if b = 46 then 63
  else if b = 95 then 64
  else if b = 43 then 65
  else 66

/-- A parsed node name (`NameRef` in `src/node_name.rs`): the node-name
character bytes and the optional numeric unit-address. -/
structure NameRef where
  nodeName : List Nat
  unitAddress : Option Nat
deriving DecidableEq

/-- Comparison of optional unit-addresses, mirroring the derived
`Ord` on `Option<u64>`: `None` sorts before `Some`. -/
def optCompare : Option Nat → Option Nat → Ordering
  | none, none => .eq
  | none, some _ => .lt
  | some _, none => .gt
  | some a, some b => compare a b

/-- The derived `Ord` on `NameRef`: node-name component first (comparing
characters by enum rank), then unit-address. -/
def nameCompare (a b : NameRef) : Ordering :=
  match lexCompare (a.nodeName.map charRank) (b.nodeName.map charRank) with
  | .eq => optCompare a.unitAddress b.unitAddress
  | o => o

/-- A comparison function for map keys, standing in for the Rust `Ord`
bound on `Map` keys. -/
class KeyCmp (K : Type) where
  cmp : K → K → Ordering

instance : KeyCmp (List Nat) := ⟨lexCompare⟩

instance : KeyCmp NameRef := ⟨nameCompare⟩

instance : KeyCmp Nat := ⟨compare⟩

/-! ## The sorted-array map (`src/map.rs`)

The Rust `Map` stores its entries in a `Vec` sorted by key and looks keys up
by binary search.  The embedding stores the same sorted list; binary search on
a sorted list is modelled by the equivalent linear scan.  (When a list holds
duplicate keys — possible only through `FromIterator`, which sorts without
deduplicating — Rust's binary search returns an unspecified matching entry;
the embedding refines this to the first matching entry.) -/

/-- The contents of a `Map`: a key-sorted association list. -/
abbrev Map (K V : Type) := List (K × V)

namespace Map

variable {K V : Type} [KeyCmp K]

/-- `Map::new` — the empty map. -/
def empty : Map K V := []

/-- `Map::get` — the value at a key, by (binary) search. -/
def get (k : K) : Map K V → Option V
  | [] => none
  | (k1, v) :: rest =>
    match KeyCmp.cmp k k1 with
    | .eq => some v
    | _ => get k rest

/-- `Map::insert` on a sorted list: replaces the value at an equal key
(returning the old value), otherwise inserts at the sorted position. -/
def insert (k : K) (v : V) : Map K V → Map K V × Option V
  | [] => ([(k, v)], none)
  | (k1, v1) :: rest =>
    match KeyCmp.cmp k k1 with
    | .lt => ((k, v) :: (k1, v1) :: rest, none)
    | .eq => ((k1, v) :: rest, some v1)
    | .gt =>
      let r := insert k v rest
      ((k1, v1) :: r.1, r.2)

/-- `Map::remove` on a sorted list: removes the entry at an equal key,
returning its value. -/
def remove (k : K) : Map K V → Option V × Map K V
  | [] => (none, [])
  | (k1, v1) :: rest =>
    match KeyCmp.cmp k k1 with
    | .eq => (some v1, rest)
    | _ =>
      let r := remove k rest
      (r.1, (k1, v1) :: r.2)

/-- Sorted insertion keeping duplicate keys, used to model the sort performed
by `FromIterator for Map` (`sort_unstable_by` on keys; order among equal keys
is unspecified in Rust, refined here to stable insertion). -/
def sortedCons (x : K × V) : Map K V → Map K V
  | [] => [x]
  | y :: rest =>
    match KeyCmp.cmp x.1 y.1 with
    | .lt => x :: y :: rest
    | _ => y :: sortedCons x rest

/-- `FromIterator for Map` — collect a list of pairs and sort it by key. -/
def fromList (l : List (K × V)) : Map K V :=
  l.foldr sortedCons []

/-- `Map::extract_if` — split off the entries satisfying a predicate,
preserving order; the first component is the removed entries, the second the
retained map. -/
def extractIf (p : K → V → Bool) (m : Map K V) : List (K × V) × Map K V :=
  (m.filter (fun e => p e.1 e.2), m.filter (fun e => !p e.1 e.2))

/-- `Map::extend_preserve` — add the entries of `other`, keeping existing
values at duplicate keys. -/
def extendPreserve (m other : Map K V) : Map K V :=
  other.foldl (fun acc e => match get e.1 acc with
    | some _ => acc
    | none => (insert e.1 e.2 acc).1) m

/-- `Map::is_empty`. -/
def isEmpty (m : Map K V) : Bool := List.isEmpty m

end Map

/-- The strict key order of sorted map contents, specialised to byte-string
keys (the `&CStr` property keys of the crate). -/
def keyLt {V : Type} (a b : List Nat × V) : Prop :=
  lexCompare a.1 b.1 = Ordering.lt

/-- Folding `Map::insert` over a list of key-value pairs, starting from the
empty map — the way node property maps are built up one insertion at a time. -/
def buildMap {V : Type} (l : List (List Nat × V)) : Map (List Nat) V :=
  l.foldl (fun m e => (Map.insert e.1 e.2 m).1) Map.empty

/-! ## `U32ByteSlice` (`src/parse.rs`)

A word-aligned view of big-endian data: a list of already-decoded `u32`
values plus the number of trailing padding bytes of the final word that lie
beyond the logical byte length. -/

structure U32BS where
  words : List Nat
  padding : Nat
deriving DecidableEq

namespace U32BS

/-- `U32ByteSlice::len_u32s` — the number of whole words in the slice. -/
def lenU32s (s : U32BS) : Nat := s.words.length

/-- `U32ByteSlice::remaining_u32s` — words excluding a partial padded word. -/
def remainingU32s (s : U32BS) : Nat :=
  s.lenU32s - (if s.padding > 0 then 1 else 0)

/-- `U32ByteSlice::len_bytes` — the logical byte length. -/
def lenBytes (s : U32BS) : Nat := 4 * s.lenU32s - s.padding

/-- `U32ByteSlice::is_empty`. -/
def isEmpty (s : U32BS) : Bool := s.words.isEmpty

/-- `U32ByteSlice::new` — wrap `words` as a slice of `length` bytes, checking
that the word count matches and that the padding bytes are zero. -/
def mkNew (words : List Nat) (length : Nat) : Option U32BS :=
  if (length + 3) / 4 = words.length then
    let padding := words.length * 4 - length
    if words.getLast?.all (fun w => w % 256 ^ padding == 0) then
      some ⟨words, padding⟩
    else none
  else none

/-- The byte content of the slice (`From<U32ByteSlice> for &[u8]`):
all bytes of the words, truncated to the logical byte length. -/
def bytes (s : U32BS) : List Nat :=
  (bytesOfWords s.words).take s.lenBytes

/-- `U32ByteSlice::consume_u32` — remove and return the first word if a whole
word remains. -/
def consumeU32 (s : U32BS) : Option Nat × U32BS :=
  if s.remainingU32s ≥ 1 then
    match s.words with
    | w :: rest => (some w, ⟨rest, s.padding⟩)
    | [] => (none, s)
  else (none, s)

/-- `U32ByteSlice::consume_u64` — remove the first two words and combine them
big-endian if two whole words remain. -/
def consumeU64 (s : U32BS) : Option Nat × U32BS :=
  if s.remainingU32s ≥ 2 then
    match s.words with
    | hi :: lo :: rest => (some (hi * 2 ^ 32 + lo), ⟨rest, s.padding⟩)
    | _ => (none, s)
  else (none, s)

/-- The discard loop of `consume_cells` for cell counts above two: consume
`n` further words, flagging a warning whenever a consumed word is not `Some 0`
(an `eprintln!` in the Rust sources, never an error). -/
def discardCells : Nat → U32BS → U32BS × Bool
  | 0, s => (s, false)
  | n + 1, s =>
    let r := s.consumeU32
    let rest := discardCells n r.2
    (rest.1, (r.1 != some 0) || rest.2)

/-- `U32ByteSlice::consume_cells` — decode a `cell_count`-cell big-endian
integer: `0` cells give `0`, one cell a `u32`, two cells a `u64`; higher
counts take the first two cells as the value and discard the rest with a
warning flag for non-zero discarded cells. -/
def consumeCells (cellCount : Nat) (s : U32BS) : Option Nat × U32BS × Bool :=
  match cellCount with
  | 0 => (some 0, s, false)
  | 1 => let r := s.consumeU32; (r.1, r.2, false)
  | 2 => let r := s.consumeU64; (r.1, r.2, false)
  | n + 3 =>
    let r := s.consumeU64
    let d := discardCells (n + 1) r.2
    (r.1, d.1, d.2)

/-- `U32ByteSlice::into_cells` — decode the whole slice as a single
`cell_count`-cell integer, requiring the slice to be exactly consumed. -/
def intoCells (cellCount : Nat) (s : U32BS) : Option Nat :=
  let r := consumeCells cellCount s
  if r.2.1.isEmpty then r.1 else none

/-- `TryFrom<U32ByteSlice> for u32` — exactly one word. -/
def u32Exact (s : U32BS) : Option Nat :=
  let r := s.consumeU32
  if r.2.isEmpty then r.1 else none

/-- `TryFrom<U32ByteSlice> for u64` — exactly two words. -/
def u64Exact (s : U32BS) : Option Nat :=
  let r := s.consumeU64
  if r.2.isEmpty then r.1 else none

/-- One tuple of `into_cells_slice`: consume one cell group per count. -/
def consumeGroup : List Nat → U32BS → Option (List Nat × U32BS)
  | [], s => some ([], s)
  | c :: cs, s =>
    match consumeCells c s with
    | (some v, rest, _) =>
      match consumeGroup cs rest with
      | some (vs, rest2) => some (v :: vs, rest2)
      | none => none
    | (none, _, _) => none

end U32BS

/-- Outcomes of an embedded Rust computation: a value, a returned error, a
panic (`unwrap` / `expect` / `unimplemented!`), or exhaustion of the fuel of
the embedding (an artifact never reached with sufficient fuel). -/
inductive POut (ε α : Type) where
  | ok : α → POut ε α
  | err : ε → POut ε α
  | crash : POut ε α
  | nofuel : POut ε α
deriving DecidableEq

namespace POut

/-- Whether the outcome is a success. -/
def isOk {ε α : Type} : POut ε α → Bool
  | .ok _ => true
  | _ => false

end POut

namespace U32BS

/-- The grouping loop of `into_cells_slice` (`while !self.is_empty()`),
made structural with fuel; `consume_cells` failing mid-group is the `expect`
of the Rust sources, i.e. a crash. -/
def groupLoop (counts : List Nat) : Nat → U32BS → POut Unit (List (List Nat))
  | 0, _ => .nofuel
  | fuel + 1, s =>
    if s.isEmpty then .ok []
    else
      match consumeGroup counts s with
      | none => .crash
      | some (g, rest) =>
        match groupLoop counts fuel rest with
        | .ok gs => .ok (g :: gs)
        | e => e

/-- `U32ByteSlice::into_cells_slice` — decode the slice into tuples whose
field widths are `counts`: fails on a padded slice, crashes on an empty count
list (the `expect` on `try_reduce`), succeeds on an empty slice when the total
width is zero, and otherwise requires the word count to be an exact multiple
of the total width. -/
def intoCellsSlice (counts : List Nat) (s : U32BS) : POut Unit (List (List Nat)) :=
  if s.padding ≠ 0 then .err ()
  else if counts.isEmpty then .crash
  else
    let total := counts.sum
    if total = 0 then
      if s.isEmpty then .ok [] else .err ()
    else if s.lenU32s % total ≠ 0 then .err ()
    else groupLoop counts (s.lenU32s + 1) s

/-- `U32ByteSlice::take` — split off the first `count` bytes, re-aligned to
whole words; fails when fewer bytes remain, crashes when the padding bytes of
the split-off part are non-zero (the `expect` inside `take`). -/
def takeBytes (count : Nat) (s : U32BS) : POut Unit (U32BS × U32BS) :=
  if count ≤ s.lenBytes then
    let k := (count + 3) / 4
    match mkNew (s.words.take k) count with
    | some t => .ok (t, ⟨s.words.drop k, s.padding⟩)
    | none => .crash
  else .err ()

/-- `U32ByteSlice::consume_c_str` — extract the leading NUL-terminated byte
string, consuming up to the next word boundary and requiring the skipped
padding bytes to be zero. -/
def consumeCStr (s : U32BS) : Option (List Nat × U32BS) :=
  match (s.bytes).findIdx? (· == 0) with
  | none => none
  | some i =>
    let consumed := i + 1
    let k := (consumed + 3) / 4
    let pad := 4 * k - consumed
    match (s.words.take k).getLast? with
    | none => none
    | some last =>
      if last % 256 ^ pad = 0 then
        some (s.bytes.take i, ⟨s.words.drop k, s.padding⟩)
      else none

end U32BS

/-! ## Property names

Property keys are byte strings (the Rust `&CStr` constants of
`PropertyKeys` in `src/node/mod.rs`), written here as lists of ASCII codes. -/

/-- The byte string `#address-cells`. -/
def keyAddressCells : List Nat := [35, 97, 100, 100, 114, 101, 115, 115, 45, 99, 101, 108, 108, 115]

/-- The byte string `#size-cells`. -/
def keySizeCells : List Nat := [35, 115, 105, 122, 101, 45, 99, 101, 108, 108, 115]

/-- The byte string `reg`. -/
def keyReg : List Nat := [114, 101, 103]

/-- The byte string `ranges`. -/
def keyRanges : List Nat := [114, 97, 110, 103, 101, 115]

/-- The byte string `compatible`. -/
def keyCompatible : List Nat := [99, 111, 109, 112, 97, 116, 105, 98, 108, 101]

/-- The byte string `chassis-type`. -/
def keyChassis : List Nat := [99, 104, 97, 115, 115, 105, 115, 45, 116, 121, 112, 101]

/-- The byte string `model`. -/
def keyModel : List Nat := [109, 111, 100, 101, 108]

/-- The byte string `status`. -/
def keyStatus : List Nat := [115, 116, 97, 116, 117, 115]

/-- The byte string `device_type`. -/
def keyDeviceType : List Nat := [100, 101, 118, 105, 99, 101, 95, 116, 121, 112, 101]

/-- The byte string `serial-number`. -/
def keySerialNumber : List Nat := [115, 101, 114, 105, 97, 108, 45, 110, 117, 109, 98, 101, 114]

/-- The byte string `reusable`. -/
def keyReusable : List Nat := [114, 101, 117, 115, 97, 98, 108, 101]

/-- The byte string `size`. -/
def keySize : List Nat := [115, 105, 122, 101]

/-- The byte string `alignment`. -/
def keyAlignment : List Nat := [97, 108, 105, 103, 110, 109, 101, 110, 116]

/-- The byte string `no-map`. -/
def keyNoMap : List Nat := [110, 111, 45, 109, 97, 112]

/-- The byte string `alloc-ranges`. -/
def keyAllocRanges : List Nat := [97, 108, 108, 111, 99, 45, 114, 97, 110, 103, 101, 115]

/-- The byte string `hotpluggable`. -/
def keyHotpluggable : List Nat := [104, 111, 116, 112, 108, 117, 103, 103, 97, 98, 108, 101]

/-- The byte string `phandle`. -/
def keyPhandle : List Nat := [112, 104, 97, 110, 100, 108, 101]

/-- The byte string `cache-level`. -/
def keyCacheLevel : List Nat := [99, 97, 99, 104, 101, 45, 108, 101, 118, 101, 108]

/-- The byte string `cpu-release-addr`. -/
def keyCpuReleaseAddr : List Nat :=
  [99, 112, 117, 45, 114, 101, 108, 101, 97, 115, 101, 45, 97, 100, 100, 114]

/-- The byte string `cache-unified`. -/
def keyCacheUnified : List Nat := [99, 97, 99, 104, 101, 45, 117, 110, 105, 102, 105, 101, 100]

/-- The byte string `next-level-cache`. -/
def keyNextLevelCache : List Nat :=
  [110, 101, 120, 116, 45, 108, 101, 118, 101, 108, 45, 99, 97, 99, 104, 101]

/-- The byte string `enable-method`. -/
def keyEnableMethod : List Nat := [101, 110, 97, 98, 108, 101, 45, 109, 101, 116, 104, 111, 100]

/-- The byte string `bootargs`. -/
def keyBootargs : List Nat := [98, 111, 111, 116, 97, 114, 103, 115]

/-- The byte string `stdin-path`. -/
def keyStdinPath : List Nat := [115, 116, 100, 105, 110, 45, 112, 97, 116, 104]

/-- The byte string `stdout-path`. -/
def keyStdoutPath : List Nat := [115, 116, 100, 111, 117, 116, 45, 112, 97, 116, 104]

/-- The byte string `cache-size`, and its `i-`/`d-` prefixed variants. -/
def keyCacheSize : List Nat := [99, 97, 99, 104, 101, 45, 115, 105, 122, 101]

/-- The byte string `cache-sets`. -/
def keyCacheSets : List Nat := [99, 97, 99, 104, 101, 45, 115, 101, 116, 115]

/-- The byte string `cache-block-size`. -/
def keyCacheBlockSize : List Nat :=
  [99, 97, 99, 104, 101, 45, 98, 108, 111, 99, 107, 45, 115, 105, 122, 101]

/-- The byte string `cache-line-size`. -/
def keyCacheLineSize : List Nat :=
  [99, 97, 99, 104, 101, 45, 108, 105, 110, 101, 45, 115, 105, 122, 101]

/-- The two-byte prefix `i-`. -/
def icachePre : List Nat := [105, 45]

/-- The two-byte prefix `d-`. -/
def dcachePre : List Nat := [100, 45]

/-- Modelled from the spec: the interrupt-related property keys removed by
`PartialInterruptDevice::extract_from_properties` in `src/node/interrupt.rs`.
The `PropertyKeys` constants it references (`INTERRUPT_CONTROLLER`,
`INTERRUPT_CELLS`, `INTERRUPTS`, `INTERRUPT_PARENT`, `INTERRUPT_MAP`,
`INTERRUPT_MAP_MASK`) are declared nowhere under `src/`; their byte values
follow the standard devicetree property names the spec lists. -/
def keyInterruptController : List Nat :=
  [105, 110, 116, 101, 114, 114, 117, 112, 116, 45, 99, 111, 110, 116, 114, 111, 108, 108, 101, 114]

/-- The byte string `#interrupt-cells` (see `keyInterruptController`). -/
def keyInterruptCells : List Nat :=
  [35, 105, 110, 116, 101, 114, 114, 117, 112, 116, 45, 99, 101, 108, 108, 115]

/-- The byte string `interrupts` (see `keyInterruptController`). -/
def keyInterrupts : List Nat := [105, 110, 116, 101, 114, 114, 117, 112, 116, 115]

/-- The byte string `interrupt-parent` (see `keyInterruptController`). -/
def keyInterruptParent : List Nat :=
  [105, 110, 116, 101, 114, 114, 117, 112, 116, 45, 112, 97, 114, 101, 110, 116]

/-- The byte string `interrupt-map` (see `keyInterruptController`). -/
def keyInterruptMap : List Nat :=
  [105, 110, 116, 101, 114, 114, 117, 112, 116, 45, 109, 97, 112]

/-- The byte string `interrupt-map-mask` (see `keyInterruptController`). -/
def keyInterruptMapMask : List Nat :=
  [105, 110, 116, 101, 114, 114, 117, 112, 116, 45, 109, 97, 112, 45, 109, 97, 115, 107]

/-- A node's property map: property-name bytes to raw value slice
(`PropertyMap` in `src/node/mod.rs`). -/
abbrev PropMap := Map (List Nat) U32BS

/-! ## Node names (`src/node_name.rs`) -/

/-- Errors of `NameRef::try_from` (`NameRefError` in `src/node_name.rs`). -/
inductive NameRefErr where
  | invalidCharacters
  | tooLong
deriving DecidableEq

/-- Split a byte list at the first occurrence of a byte
(`slice::split_once`). -/
def splitOnceByte (sep : Nat) (l : List Nat) : Option (List Nat × List Nat) :=
  (l.findIdx? (· == sep)).map (fun i => (l.take i, l.drop (i + 1)))

/-- `TryFrom<&[u8]> for NameRef` — parse `node-name[@unit-address]`,
requiring the node-name component to be at most 31 valid characters and, when
an `@` is present, the unit-address (up to the first comma) to be a
hexadecimal `u64`. -/
def nameRefTryFrom (value : List Nat) : Except NameRefErr NameRef :=
  match splitOnceByte 64 value with
  | none =>
    if value.length ≤ 31 then
      if value.all validNameChar then .ok ⟨value, none⟩
      else .error .invalidCharacters
    else .error .tooLong
  | some (nn, ua) =>
    let addr := ua.takeWhile (fun b => b != 44)
    if nn.length ≤ 31 then
      match (if nn.all validNameChar then some nn else none), hexParse addr with
      | some n, some a => .ok ⟨n, some a⟩
      | _, _ => .error .invalidCharacters
    else .error .tooLong

/-! ## Property values (`src/property.rs`) -/

/-- The operational status of a device (`Status` in `src/property.rs`). -/
inductive StatusV where
  | okSt
  | disabled
  | reservedSt
  | fail (code : List Nat)
deriving DecidableEq

/-- The byte string `fail`. -/
def failBytes : List Nat := [102, 97, 105, 108]

/-- The byte string `okay`. -/
def okayBytes : List Nat := [111, 107, 97, 121]

/-- The byte string `disabled`. -/
def disabledBytes : List Nat := [100, 105, 115, 97, 98, 108, 101, 100]

/-- The byte string `reserved`. -/
def reservedBytes : List Nat := [114, 101, 115, 101, 114, 118, 101, 100]

/-- `TryFrom<&[u8]> for Status` (`src/property.rs` lines 175-193): read a
NUL-terminated string; a `fail` prefix yields `Fail` with the remaining bytes
as the code, otherwise only `okay`, `disabled` and `reserved` are accepted. -/
def statusTryFrom (value : List Nat) : Except (List Nat) StatusV :=
  match cstrUntilNul value with
  | none => .error value
  | some s =>
    if s.take 4 = failBytes then .ok (.fail (s.drop 4))
    else if s = okayBytes then .ok .okSt
    else if s = disabledBytes then .ok .disabled
    else if s = reservedBytes then .ok .reservedSt
    else .error s

/-- A compatible or model string (`Model` in `src/property.rs`): either a
`vendor,model` pair split at the only comma, or an opaque string. -/
inductive ModelT where
  | manufacturerModel (vendor model : List Nat)
  | other (s : List Nat)
deriving DecidableEq

/-- `TryFrom` for `Model` applied to the content of one string
(`src/property.rs` lines 33-51): split on commas; exactly two parts give a
`ManufacturerModel`, anything else is opaque. -/
def modelOfBytes (s : List Nat) : ModelT :=
  if s.count 44 = 1 then
    match splitOnceByte 44 s with
    | some (vendor, model) => .manufacturerModel vendor model
    | none => .other s
  else .other s

/-- `parse_model_list` (`src/property.rs` lines 69-98): parse a concatenated
list of NUL-terminated model strings, skipping empty strings, failing when a
non-empty remainder holds no NUL byte.  Fuel-structural; one byte is consumed
per skipped empty string and `length + 1` bytes per model, so any fuel above
the buffer length is sufficient. -/
def parseModelList : Nat → List Nat → Option (List ModelT)
  | 0, _ => none
  | _ + 1, [] => some []
  | fuel + 1, value =>
    match cstrUntilNul value with
    | none => none
    | some s =>
      if s.isEmpty then parseModelList fuel (value.drop 1)
      else
        match parseModelList fuel (value.drop (s.length + 1)) with
        | some ms => some (modelOfBytes s :: ms)
        | none => none

/-- A CPU enable method (`EnableType` in `src/property.rs`). -/
inductive EnableMethod where
  | spinTable (releaseAddr : Nat)
  | vendorSpecific (vendor method : List Nat)
deriving DecidableEq

/-- Errors of `EnableType::extract_from_properties`
(`EnableTypeError` in `src/property.rs`). -/
inductive EnableMethodErr where
  | notPresent
  | noReleaseAddr
  | invalid
deriving DecidableEq

/-- The byte string `spin-table`. -/
def spinTableBytes : List Nat := [115, 112, 105, 110, 45, 116, 97, 98, 108, 101]

/-- `EnableType::extract_from_properties` (`src/property.rs` lines 209-235):
remove `enable-method`; `spin-table` additionally removes and decodes
`cpu-release-addr` as a `u64`, any other value must be a `vendor,method`
pair.  Returns the outcome together with the updated property map. -/
def enableMethodExtract (props : PropMap) : Except EnableMethodErr EnableMethod × PropMap :=
  match Map.remove keyEnableMethod props with
  | (none, props1) => (.error .notPresent, props1)
  | (some bytes, props1) =>
    match cstrUntilNul bytes.bytes with
    | none => (.error .invalid, props1)
    | some s =>
      if s = spinTableBytes then
        match Map.remove keyCpuReleaseAddr props1 with
        | (none, props2) => (.error .noReleaseAddr, props2)
        | (some addr, props2) =>
          match U32BS.u64Exact addr with
          | some a => (.ok (.spinTable a), props2)
          | none => (.error .noReleaseAddr, props2)
      else
        if s.count 44 = 1 then
          match splitOnceByte 44 s with
          | some (vendor, method) => (.ok (.vendorSpecific vendor method), props1)
          | none => (.error .invalid, props1)
        else (.error .invalid, props1)

/-! ## Cache descriptions (`src/node/cache.rs`) -/

/-- A cache description (`Description` in `src/node/cache.rs`); each field is
a `NonZeroU32`, so a present property decoding to zero becomes `none`. -/
structure CacheDesc where
  size : Option Nat
  sets : Option Nat
  blockSize : Option Nat
  lineSize : Option Nat
deriving DecidableEq

/-- Remove one cache-description property: a single-`u32` value filtered to
be non-zero. -/
def descField (key : List Nat) (props : PropMap) : Option Nat × PropMap :=
  match Map.remove key props with
  | (none, props1) => (none, props1)
  | (some bytes, props1) =>
    match U32BS.u32Exact bytes with
    | some v => (if v = 0 then none else some v, props1)
    | none => (none, props1)

/-- `Description::from_prefix` — remove the four cache-description keys with
the given prefix (`cache_description!` in `src/node/cache.rs`). -/
def cacheDescExtract (pre : List Nat) (props : PropMap) : CacheDesc × PropMap :=
  let s1 := descField (pre ++ keyCacheSize) props
  let s2 := descField (pre ++ keyCacheSets) s1.2
  let s3 := descField (pre ++ keyCacheBlockSize) s2.2
  let s4 := descField (pre ++ keyCacheLineSize) s3.2
  (⟨s1.1, s2.1, s3.1, s4.1⟩, s4.2)

/-- An L1 cache (`L1` in `src/node/cache.rs`): unified, or split
instruction/data (Harvard). -/
inductive L1 where
  | unified (desc : CacheDesc)
  | harvard (icache dcache : CacheDesc)
deriving DecidableEq

/-- `L1::extract_from` — a `cache-unified` property selects a unified cache
with unprefixed keys, otherwise the `i-`/`d-` prefixed keys are read. -/
def l1Extract (props : PropMap) : L1 × PropMap :=
  match Map.remove keyCacheUnified props with
  | (some _, props1) =>
    let d := cacheDescExtract [] props1
    (.unified d.1, d.2)
  | (none, props1) =>
    let i := cacheDescExtract icachePre props1
    let d := cacheDescExtract dcachePre i.2
    (.harvard i.1 d.1, d.2)

/-! ## Raw nodes (`src/node/mod.rs`) -/

/-- An unparsed device-tree node (`RawNode`): a name-keyed map of children
and a map of raw properties. -/
inductive RawNode where
  | mk : List (NameRef × RawNode) → PropMap → RawNode

/-- The children map of a raw node. -/
def RawNode.children : RawNode → List (NameRef × RawNode)
  | .mk c _ => c

/-- The property map of a raw node. -/
def RawNode.properties : RawNode → PropMap
  | .mk _ p => p

/-- `RawNode::new` — collect an ordered list of named children into the
sorted children map. -/
def rawNodeNew (children : List (NameRef × RawNode)) (props : PropMap) : RawNode :=
  .mk (Map.fromList children) props

/-- Errors of the `#address-cells`/`#size-cells` lookups
(`CellError` in `src/node/mod.rs`). -/
inductive CellErr where
  | notPresent
  | invalid
deriving DecidableEq

/-- The per-property parse of `extract_cell_counts`: a single `u32` that
must fit `u8`. -/
def parseCellsProp (bytes : U32BS) : Except CellErr Nat :=
  match U32BS.u32Exact bytes with
  | some v => if v ≤ 255 then .ok v else .error .invalid
  | none => .error .invalid

/-- `RawNode::extract_cell_counts` (`src/node/mod.rs` lines 99-115): remove
and decode `#address-cells` and `#size-cells`, defaulting to `2` and `1`
respectively when absent. -/
def extractCellCounts (props : PropMap) :
    (Except CellErr Nat × Except CellErr Nat) × PropMap :=
  let a := Map.remove keyAddressCells props
  let s := Map.remove keySizeCells a.2
  ((a.1.elim (.ok 2) parseCellsProp, s.1.elim (.ok 1) parseCellsProp), s.2)

/-! ## Device nodes (`src/node/device.rs`) -/

/-- A `ranges` entry (`Range` in `src/property.rs`). -/
structure RangeT where
  childAddress : Nat
  parentAddress : Nat
  size : Nat
deriving DecidableEq

/-- Errors of device-node construction (`Error` in `src/node/device.rs`). -/
inductive DevErr where
  | reg
  | compatible
  | model
  | ranges
  | status
  | cells
  | badPHandle
  | duplicatePHandle
  | child (e : DevErr)
deriving DecidableEq

/-- A resolved generic device node (`Node` in `src/node/device.rs`); the
`Rc`/`Weak` sharing and the interrupt bookkeeping carry no data relevant to
the embedded claims and are dropped. -/
inductive DeviceNode where
  | mk : List (NameRef × DeviceNode) → Option (List ModelT) → Option ModelT →
      Option (List (List Nat)) → Option (List RangeT) → StatusV → PropMap → DeviceNode

/-- The children map of a device node. -/
def DeviceNode.children : DeviceNode → List (NameRef × DeviceNode)
  | .mk c _ _ _ _ _ _ => c

/-- The decoded `reg` of a device node. -/
def DeviceNode.reg : DeviceNode → Option (List (List Nat))
  | .mk _ _ _ r _ _ _ => r

/-- The status of a device node. -/
def DeviceNode.status : DeviceNode → StatusV
  | .mk _ _ _ _ _ s _ => s

/-- The leftover properties of a device node. -/
def DeviceNode.properties : DeviceNode → PropMap
  | .mk _ _ _ _ _ _ p => p

/-- The global phandle table (`Map<u32, Rc<DeviceNode>>`). -/
abbrev PhandleMap := Map Nat DeviceNode

/-- Convert one three-cell group into a `Range`. -/
def rangeOfGroup (g : List Nat) : RangeT :=
  ⟨g.getD 0 0, g.getD 1 0, g.getD 2 0⟩

/-- The property-decoding prefix of `DeviceNode::new`
(`src/node/device.rs` lines 79-140), before children are processed. -/
structure DevProps where
  childAddrCells : Except CellErr Nat
  childSizeCells : Except CellErr Nat
  reg : Option (List (List Nat))
  compatible : Option (List ModelT)
  model : Option ModelT
  ranges : Option (List RangeT)
  status : StatusV
  phandle : Option Nat
  props : PropMap

/-- Decode `reg`, `compatible`, `model`, `ranges`, `status` and `phandle`
for a device node, in source order, threading the property map through the
removals (`src/node/device.rs` lines 79-140).  The missing
`TryFrom<U32ByteSlice> for Box<[Model]>` impl is modelled as
`parse_model_list` over the byte content, per `src/property.rs`. -/
def devPropsPhase (props0 : PropMap) (addressCells sizeCells : Option Nat) :
    POut DevErr DevProps :=
  let cc := extractCellCounts props0
  let childAC := cc.1.1
  let childSC := cc.1.2
  let rReg := Map.remove keyReg cc.2
  let regOut : POut DevErr (Option (List (List Nat))) :=
    match rReg.1 with
    | none => .ok none
    | some bytes =>
      match addressCells, sizeCells with
      | some a, some s =>
        match U32BS.intoCellsSlice [a, s] bytes with
        | .ok gs => .ok (some gs)
        | .err () => .err .reg
        | .crash => .crash
        | .nofuel => .nofuel
      | _, _ => .err .reg
  match regOut with
  | .err e => .err e
  | .crash => .crash
  | .nofuel => .nofuel
  | .ok reg =>
    let rCompat := Map.remove keyCompatible rReg.2
    let compatOut : Except Unit (Option (List ModelT)) :=
      match rCompat.1 with
      | none => .ok none
      | some bytes =>
        match parseModelList (bytes.bytes.length + 1) bytes.bytes with
        | some ms => .ok (some ms)
        | none => .error ()
    match compatOut with
    | .error () => .err .compatible
    | .ok compatible =>
      let rModel := Map.remove keyModel rCompat.2
      let modelOut : Except Unit (Option ModelT) :=
        match rModel.1 with
        | none => .ok none
        | some bytes =>
          match cstrUntilNul bytes.bytes with
          | some s => .ok (some (modelOfBytes s))
          | none => .error ()
      match modelOut with
      | .error () => .err .model
      | .ok model =>
        let rRanges := Map.remove keyRanges rModel.2
        let rangesOut : POut DevErr (Option (List RangeT)) :=
          match rRanges.1 with
          | none => .ok none
          | some bytes =>
            match childAC, addressCells, childSC with
            | .ok ca, some a, .ok cs =>
              match U32BS.intoCellsSlice [ca, a, cs] bytes with
              | .ok gs => .ok (some (gs.map rangeOfGroup))
              | .err () => .err .ranges
              | .crash => .crash
              | .nofuel => .nofuel
            | _, _, _ => .err .ranges
        match rangesOut with
        | .err e => .err e
        | .crash => .crash
        | .nofuel => .nofuel
        | .ok ranges =>
          let rStatus := Map.remove keyStatus rRanges.2
          let statusOut : Except Unit StatusV :=
            match rStatus.1 with
            | none => .ok .okSt
            | some bytes => (statusTryFrom bytes.bytes).mapError (fun _ => ())
          match statusOut with
          | .error () => .err .status
          | .ok status =>
            let rPh := Map.remove keyPhandle rStatus.2
            let phOut : Except Unit (Option Nat) :=
              match rPh.1 with
              | none => .ok none
              | some bytes =>
                match U32BS.u32Exact bytes with
                | some v => .ok (some v)
                | none => .error ()
            match phOut with
            | .error () => .err .badPHandle
            | .ok phandle =>
              .ok ⟨childAC, childSC, reg, compatible, model, ranges, status, phandle, rPh.2⟩

/-- `PartialInterruptDevice::extract_from_properties`
(`src/node/interrupt.rs`): remove the interrupt-related keys; a malformed
`#interrupt-cells` or `interrupt-parent` value hits an `unwrap` and crashes.
Only the updated property map is kept of the result. -/
def interruptExtract (props : PropMap) : POut Unit PropMap :=
  let r1 := Map.remove keyInterruptController props
  match Map.remove keyInterruptCells r1.2 with
  | (cellsV, p2) =>
    let cellsOk : Bool := cellsV.elim true (fun bytes =>
      match U32BS.u32Exact bytes with
      | some v => v ≤ 255
      | none => false)
    if cellsOk then
      let r3 := Map.remove keyInterrupts p2
      match Map.remove keyInterruptParent r3.2 with
      | (parentV, p4) =>
        let parentOk : Bool := parentV.elim true (fun bytes => (U32BS.u32Exact bytes).isSome)
        if parentOk then
          let r5 := Map.remove keyInterruptMap p4
          let r6 := Map.remove keyInterruptMapMask r5.2
          .ok r6.2
        else .crash
    else .crash

mutual

/-- `DeviceNode::new` (`src/node/device.rs` lines 72-177): decode the
properties, resolve the children with this node's own cell counts, extract
the interrupt properties, and finally claim the node's phandle in the global
table — a second claim of an already-present phandle is `DuplicatePHandle`.
A failing child is the `unwrap` inside `Rc::new_cyclic` and crashes. -/
def deviceNodeNew : Nat → RawNode → Option Nat → Option Nat → PhandleMap →
    POut DevErr (DeviceNode × PhandleMap)
  | 0, _, _, _, _ => .nofuel
  | fuel + 1, raw, addressCells, sizeCells, ph =>
    match devPropsPhase raw.properties addressCells sizeCells with
    | .err e => .err e
    | .crash => .crash
    | .nofuel => .nofuel
    | .ok dp =>
      match deviceNodesFold fuel raw.children dp.childAddrCells.toOption
          dp.childSizeCells.toOption ph with
      | .err _ => .crash
      | .crash => .crash
      | .nofuel => .nofuel
      | .ok (pairs, ph2) =>
        match interruptExtract dp.props with
        | .ok finalProps =>
          let node : DeviceNode :=
            .mk (Map.fromList pairs) dp.compatible dp.model dp.reg dp.ranges
              dp.status finalProps
          match dp.phandle with
          | none => .ok (node, ph2)
          | some p =>
            let ins := Map.insert p node ph2
            if ins.2.isSome then .err .duplicatePHandle
            else .ok (node, ins.1)
        | _ => .crash

/-- The fold of `into_components_from_cells` over a children map
(`src/node/mod.rs` lines 152-169): resolve each child in map order,
threading the phandle table, stopping at the first error. -/
def deviceNodesFold : Nat → List (NameRef × RawNode) → Option Nat → Option Nat →
    PhandleMap → POut DevErr (List (NameRef × DeviceNode) × PhandleMap)
  | 0, _, _, _, _ => .nofuel
  | _ + 1, [], _, _, ph => .ok ([], ph)
  | fuel + 1, (name, raw) :: rest, addressCells, sizeCells, ph =>
    match deviceNodeNew fuel raw addressCells sizeCells ph with
    | .err e => .err e
    | .crash => .crash
    | .nofuel => .nofuel
    | .ok (node, ph2) =>
      match deviceNodesFold fuel rest addressCells sizeCells ph2 with
      | .ok (nodes, ph3) => .ok ((name, node) :: nodes, ph3)
      | e => e

end

/-- Errors of `into_components` (`RawNodeError` in `src/node/mod.rs`). -/
inductive RawNodeErr where
  | cells
  | child (e : DevErr)
deriving DecidableEq

/-- Whether a cell-count lookup gave a present-but-invalid value
(the `matches!(_, Err(CellError::Invalid))` test of `into_components`). -/
def isInvalidCell : Except CellErr Nat → Bool
  | .error .invalid => true
  | _ => false

/-- `RawNode::into_components` (`src/node/mod.rs` lines 120-147): remove the
cell-count properties, reject a present-but-invalid count, and resolve the
children with the extracted counts.  Returns the leftover properties paired
with the children outcome. -/
def intoComponents (fuel : Nat) (raw : RawNode) (ph : PhandleMap) :
    PropMap × POut RawNodeErr (Map NameRef DeviceNode × PhandleMap) :=
  let cc := extractCellCounts raw.properties
  (cc.2,
    if isInvalidCell cc.1.1 || isInvalidCell cc.1.2 then .err .cells
    else
      match deviceNodesFold fuel raw.children cc.1.1.toOption cc.1.2.toOption ph with
      | .ok (pairs, ph2) => .ok (Map.fromList pairs, ph2)
      | .err e => .err (.child e)
      | .crash => .crash
      | .nofuel => .nofuel)

/-! ## Higher-level caches (`src/node/cache.rs`) -/

/-- A higher-level cache node (`HigherLevel` in `src/node/cache.rs`). -/
structure HigherLevel where
  cache : CacheDesc
  level : Nat
  children : Map NameRef DeviceNode
  properties : PropMap

/-- Errors of cache-node construction
(`HigherLevelError` in `src/node/cache.rs`). -/
inductive CacheErr where
  | badType
  | phandle
  | level
  | cells
  | child (e : DevErr)
deriving DecidableEq

/-- The byte string `cache`. -/
def cacheBytes : List Nat := [99, 97, 99, 104, 101]

/-- `HigherLevel::new` (`src/node/cache.rs` lines 150-194): require
`compatible` to be the string `cache`, a `u32` `phandle` and a `u32`
`cache-level`, read the cache description, and resolve the children.  The
returned phandle value is handed back to the caller; it is **not** inserted
into the global phandle table. -/
def higherLevelNew (fuel : Nat) (raw : RawNode) (ph : PhandleMap) :
    POut CacheErr ((Nat × HigherLevel) × PhandleMap) :=
  let rCompat := Map.remove keyCompatible raw.properties
  let compatOk : Bool := rCompat.1.elim false (fun bytes =>
    (cstrUntilNul bytes.bytes).elim false (fun s => s == cacheBytes))
  if !compatOk then .err .badType
  else
    match Map.remove keyPhandle rCompat.2 with
    | (phBytes, props2) =>
      match phBytes.bind U32BS.u32Exact with
      | none => .err .phandle
      | some phandleV =>
        match Map.remove keyCacheLevel props2 with
        | (lvlBytes, props3) =>
          match lvlBytes.bind U32BS.u32Exact with
          | none => .err .level
          | some level =>
            let d := cacheDescExtract [] props3
            let comps := intoComponents fuel (.mk raw.children d.2) ph
            match comps.2 with
            | .ok (childMap, ph2) =>
              .ok ((phandleV, ⟨d.1, level, childMap, comps.1⟩), ph2)
            | .err .cells => .err .cells
            | .err (.child e) => .err (.child e)
            | .crash => .crash
            | .nofuel => .nofuel

/-! ## CPU nodes (`src/node/cpu.rs`) -/

/-- The status of a CPU (`Status` in `src/node/cpu.rs`). -/
inductive CpuStatus where
  | okay
  | disabled
  | fail
deriving DecidableEq

/-- Errors of CPU-node construction (`NodeError` in `src/node/cpu.rs`). -/
inductive CpuErr where
  | deviceType
  | enableMethod
  | releaseAddr
  | status
  | reg
  | nextLevelCache
deriving DecidableEq

/-- A resolved CPU node (`Node` in `src/node/cpu.rs`). -/
structure CpuNode where
  enableMethod : Option EnableMethod
  reg : Nat
  l1 : L1
  status : CpuStatus
  nextCache : Option HigherLevel
  properties : PropMap

/-- The byte string `cpu`. -/
def cpuBytes : List Nat := [99, 112, 117]

/-- `cpu::Node::new` (`src/node/cpu.rs` lines 98-174): merge the `/cpus`
baseline properties (existing keys win), require `device_type == "cpu"`,
derive the enable method (mandatory when status is `disabled`), the L1 cache,
the optional next-level cache (a dangling cache phandle is
`NextLevelCache`), and the `reg` CPU id — only one address cell is
implemented, anything else hits `unimplemented!` and crashes. -/
def cpuNodeNew (raw : RawNode) (base : PropMap) (caches : Map Nat HigherLevel)
    (addressCells : Nat) : POut CpuErr CpuNode :=
  let props0 := Map.extendPreserve raw.properties base
  match Map.remove keyDeviceType props0 with
  | (dtV, props1) =>
    let dtOk : Bool := dtV.elim false (fun bytes =>
      (cstrUntilNul bytes.bytes).elim false (fun s => s == cpuBytes))
    if !dtOk then .err .deviceType
    else
      match enableMethodExtract props1 with
      | (.error .noReleaseAddr, _) => .err .releaseAddr
      | (.error .invalid, _) => .err .enableMethod
      | (em, props2) =>
        let enableMethod := em.toOption
        match Map.remove keyStatus props2 with
        | (stV, props3) =>
          let statusOut : POut CpuErr CpuStatus :=
            match stV with
            | none => .ok .okay
            | some bytes =>
              match cstrUntilNul bytes.bytes with
              | some s =>
                if s = okayBytes then .ok .okay
                else if s = disabledBytes then
                  if enableMethod.isNone then .err .enableMethod else .ok .disabled
                else if s = failBytes then .ok .fail
                else .err .status
              | none => .err .status
          match statusOut with
          | .err e => .err e
          | .crash => .crash
          | .nofuel => .nofuel
          | .ok status =>
            let l1r := l1Extract props3
            match Map.remove keyNextLevelCache l1r.2 with
            | (ncV, props4) =>
              let nextOut : POut CpuErr (Option HigherLevel) :=
                match ncV with
                | none => .ok none
                | some bytes =>
                  match (U32BS.u32Exact bytes).bind (fun p => Map.get p caches) with
                  | some c => .ok (some c)
                  | none => .err .nextLevelCache
              match nextOut with
              | .err e => .err e
              | .crash => .crash
              | .nofuel => .nofuel
              | .ok nextCache =>
                match Map.remove keyReg props4 with
                | (none, _) => .err .reg
                | (some bytes, props5) =>
                  if addressCells ≠ 1 then .crash
                  else
                    match U32BS.u32Exact bytes with
                    | none => .err .reg
                    | some reg =>
                      .ok ⟨enableMethod, reg, l1r.1, status, nextCache, props5⟩

/-! ## Reserved memory (`src/node/reserved_memory.rs`) -/

/-- The allocation of a reserved-memory node (`Range` in
`src/node/reserved_memory.rs`). -/
inductive RmRange where
  | staticR (regs : List (Nat × Nat))
  | dynamicR (size : Nat) (alignment : Option Nat) (allocRanges : Option (List (Nat × Nat)))
deriving DecidableEq

/-- The usage restriction of a reserved region (`Usage`). -/
inductive RmUsage where
  | noMap
  | reusable
  | otherU
deriving DecidableEq

/-- The decoded `compatible` of a reserved region (`Compatible`). -/
inductive RmCompat where
  | sharedDmaPool
  | vendorSpecific (vendor : List Nat) (device : Option (List Nat)) (usage : List Nat)
deriving DecidableEq

/-- Errors of reserved-memory-node construction (`Error`). -/
inductive RmErr where
  | invalidMemory
  | usage
  | cells
  | compatible
  | child (e : DevErr)
deriving DecidableEq

/-- A reserved-memory node (`Node` in `src/node/reserved_memory.rs`). -/
structure RmNode where
  memory : RmRange
  usage : RmUsage
  compatible : Option RmCompat
  properties : PropMap
  children : Map NameRef DeviceNode

/-- The byte string `shared-dma-pool`. -/
def sharedDmaPoolBytes : List Nat :=
  [115, 104, 97, 114, 101, 100, 45, 100, 109, 97, 45, 112, 111, 111, 108]

/-- `TryFrom<&CStr> for Compatible`
(`src/node/reserved_memory.rs` lines 57-73), using `split_at_first` of
`src/lib.rs`: `shared-dma-pool`, or `vendor,device-usage` with the device
part optional. -/
def rmCompatOfBytes (s : List Nat) : Except Unit RmCompat :=
  if s = sharedDmaPoolBytes then .ok .sharedDmaPool
  else
    match splitOnceByte 44 s with
    | none => .error ()
    | some (vendor, remainder) =>
      match splitOnceByte 45 remainder with
      | none => .ok (.vendorSpecific vendor none remainder)
      | some (device, usage) => .ok (.vendorSpecific vendor (some device) usage)

/-- The `(address, size)` pair loop shared by the `reg` and `alloc-ranges`
decodings: consume an address and a size per iteration until the slice is
exhausted.  Fuel-structural; each iteration consumes at least one word when
the cell counts are not both zero, so fuel above the word count suffices. -/
def regPairsLoop (ac sc : Nat) : Nat → U32BS → POut Unit (List (Nat × Nat))
  | 0, _ => .nofuel
  | fuel + 1, s =>
    if s.isEmpty then .ok []
    else
      match U32BS.consumeCells ac s with
      | (none, _, _) => .err ()
      | (some a, s1, _) =>
        match U32BS.consumeCells sc s1 with
        | (none, _, _) => .err ()
        | (some sz, s2, _) =>
          match regPairsLoop ac sc fuel s2 with
          | .ok rest => .ok ((a, sz) :: rest)
          | e => e

/-- `reserved_memory::Node::new` (`src/node/reserved_memory.rs` lines
146-240): decode `size`/`alignment` with the size cells, `reg` as static
ranges, the mutually-exclusive `no-map`/`reusable` flags, sorted
`alloc-ranges`, the optional `compatible`, and the children; a `reg`
property takes precedence over a dynamic `size`. -/
def rmNodeNew (fuel : Nat) (raw : RawNode) (addressCells sizeCells : Nat)
    (ph : PhandleMap) : POut RmErr (RmNode × PhandleMap) :=
  let rSize := Map.remove keySize raw.properties
  let sizeOut : Except Unit (Option Nat) :=
    match rSize.1 with
    | none => .ok none
    | some bytes =>
      match U32BS.intoCells sizeCells bytes with
      | some v => .ok (some v)
      | none => .error ()
  match sizeOut with
  | .error () => .err .cells
  | .ok size =>
    let rAlign := Map.remove keyAlignment rSize.2
    let alignOut : Except Unit (Option Nat) :=
      match rAlign.1 with
      | none => .ok none
      | some bytes =>
        match U32BS.intoCells sizeCells bytes with
        | some v => .ok (some v)
        | none => .error ()
    match alignOut with
    | .error () => .err .cells
    | .ok alignment =>
      let rRegs := Map.remove keyReg rAlign.2
      let regsOut : POut RmErr (Option (List (Nat × Nat))) :=
        match rRegs.1 with
        | none => .ok none
        | some bytes =>
          match regPairsLoop addressCells sizeCells (bytes.lenU32s + 1) bytes with
          | .ok l => .ok (some l)
          | .err () => .err .cells
          | .crash => .crash
          | .nofuel => .nofuel
      match regsOut with
      | .err e => .err e
      | .crash => .crash
      | .nofuel => .nofuel
      | .ok regs =>
        let rNoMap := Map.remove keyNoMap rRegs.2
        let rReusable := Map.remove keyReusable rNoMap.2
        let noMap := rNoMap.1.isSome
        let reusable := rReusable.1.isSome
        if noMap && reusable then .err .usage
        else
          let rAlloc := Map.remove keyAllocRanges rReusable.2
          let allocOut : POut RmErr (Option (List (Nat × Nat))) :=
            match rAlloc.1 with
            | none => .ok none
            | some bytes =>
              match regPairsLoop addressCells sizeCells (bytes.lenU32s + 1) bytes with
              | .ok l => .ok (some (Map.fromList l))
              | .err () => .err .cells
              | .crash => .crash
              | .nofuel => .nofuel
          match allocOut with
          | .err e => .err e
          | .crash => .crash
          | .nofuel => .nofuel
          | .ok allocRanges =>
            let rCompat := Map.remove keyCompatible rAlloc.2
            let compatOut : Except Unit (Option RmCompat) :=
              match rCompat.1 with
              | none => .ok none
              | some bytes =>
                match cstrUntilNul bytes.bytes with
                | none => .error ()
                | some s =>
                  match rmCompatOfBytes s with
                  | .ok c => .ok (some c)
                  | .error () => .error ()
            match compatOut with
            | .error () => .err .compatible
            | .ok compatible =>
              let comps := intoComponents fuel (.mk raw.children rCompat.2) ph
              match comps.2 with
              | .err .cells => .err .cells
              | .err (.child e) => .err (.child e)
              | .crash => .crash
              | .nofuel => .nofuel
              | .ok (childMap, ph2) =>
                let memOut : POut RmErr RmRange :=
                  match regs with
                  | some staticRegs => .ok (.staticR staticRegs)
                  | none =>
                    match size with
                    | some sz => .ok (.dynamicR sz alignment allocRanges)
                    | none => .err .invalidMemory
                match memOut with
                | .err e => .err e
                | .crash => .crash
                | .nofuel => .nofuel
                | .ok memory =>
                  .ok (⟨memory,
                    if noMap then .noMap else if reusable then .reusable else .otherU,
                    compatible, comps.1, childMap⟩, ph2)

/-! ## Memory regions (`src/node/memory_region.rs`) -/

/-- Errors of memory-region construction (`Error` in
`src/node/memory_region.rs`). -/
inductive MemErr where
  | typeE
  | reg
  | childrenE
deriving DecidableEq

/-- A physical memory region (`MemoryRegion`); `initial_mapped_area` is
always `None` in the constructor and is dropped here. -/
structure MemRegion where
  regions : List (Nat × Nat)
  hotpluggable : Bool
  properties : PropMap

/-- The byte content `memory\0` compared against the raw `device_type`
value (including its NUL byte). -/
def memoryNulBytes : List Nat := [109, 101, 109, 111, 114, 121, 0]

/-- The node-name `memory` (without NUL), used to select memory nodes. -/
def memoryName : List Nat := [109, 101, 109, 111, 114, 121]

/-- The loop of `MemoryRegion::new`: decode `(start, size)` pairs and check
each start against the node's unit-address. -/
def memRegionLoop (name : NameRef) (ac sc : Nat) : Nat → U32BS →
    POut Unit (List (Nat × Nat))
  | 0, _ => .nofuel
  | fuel + 1, s =>
    if s.isEmpty then .ok []
    else
      match U32BS.consumeCells ac s with
      | (none, _, _) => .err ()
      | (some start, s1, _) =>
        match U32BS.consumeCells sc s1 with
        | (none, _, _) => .err ()
        | (some size, s2, _) =>
          if name.unitAddress.elim false (fun addr => addr ≠ start) then .err ()
          else
            match memRegionLoop name ac sc fuel s2 with
            | .ok rest => .ok ((start, size) :: rest)
            | e => e

/-- `MemoryRegion::new` (`src/node/memory_region.rs` lines 64-106): no
children allowed, `device_type` must be exactly the bytes `memory\0`,
`hotpluggable` is a flag, and `reg` is mandatory, decoded with the parent's
cell counts; every start must match the unit-address when one is present. -/
def memoryRegionNew (raw : RawNode) (name : NameRef) (ac sc : Nat) :
    POut MemErr MemRegion :=
  if !raw.children.isEmpty then .err .childrenE
  else
    match Map.remove keyDeviceType raw.properties with
    | (dtV, props1) =>
      let dtOk : Bool := dtV.elim false (fun bytes => bytes.bytes == memoryNulBytes)
      if !dtOk then .err .typeE
      else
        match Map.remove keyHotpluggable props1 with
        | (hotV, props2) =>
          match Map.remove keyReg props2 with
          | (none, _) => .err .reg
          | (some bytes, props3) =>
            match memRegionLoop name ac sc (bytes.lenU32s + 1) bytes with
            | .ok regions => .ok ⟨regions, hotV.isSome, props3⟩
            | .err () => .err .reg
            | .crash => .crash
            | .nofuel => .nofuel

/-! ## Chassis type

`src/node/root.rs` imports `ChassisType` and `ChassisError` from
`crate::property`, but `src/property.rs` defines neither. -/

/-- Modelled from the spec: the root's optional form-factor string
(`ChassisType::try_from`, referenced by `src/node/root.rs` but defined
nowhere under `src/`).  The spec describes `chassis-type` only as a
form-factor string; the model accepts the standard devicetree chassis
strings and rejects anything else. -/
inductive ChassisType where
  | desktop
  | laptop
  | convertible
  | server
  | tablet
  | handset
  | watch
  | embedded
deriving DecidableEq

/-- Modelled from the spec: decode a chassis string (see `ChassisType`). -/
def chassisTryFrom (bytes : U32BS) : Except Unit ChassisType :=
  match cstrUntilNul bytes.bytes with
  | none => .error ()
  | some s =>
    if s = [100, 101, 115, 107, 116, 111, 112] then .ok .desktop
    else if s = [108, 97, 112, 116, 111, 112] then .ok .laptop
    else if s = [99, 111, 110, 118, 101, 114, 116, 105, 98, 108, 101] then .ok .convertible
    else if s = [115, 101, 114, 118, 101, 114] then .ok .server
    else if s = [116, 97, 98, 108, 101, 116] then .ok .tablet
    else if s = [104, 97, 110, 100, 115, 101, 116] then .ok .handset
    else if s = [119, 97, 116, 99, 104] then .ok .watch
    else if s = [101, 109, 98, 101, 100, 100, 101, 100] then .ok .embedded
    else .error ()

/-! ## The root node (`src/node/root.rs`) -/

/-- Errors of root-node resolution (`NodeError` in `src/node/root.rs`). -/
inductive RootErr where
  | model
  | compatible
  | serialNumber
  | cpuRoot
  | cpu (e : CpuErr)
  | regMismatch (unitAddress : Option Nat) (reg : Nat)
  | cache
  | cells (e : CellErr)
  | reservedMemoryRoot
  | reservedMemory (e : RmErr)
  | memory (e : MemErr)
  | typeE
  | child (e : DevErr)
  | chassis
  | aliasE
deriving DecidableEq

/-- The resolved root node (`Node` in `src/node/root.rs`). -/
structure RootNode where
  model : ModelT
  compatible : List ModelT
  serialNumber : Option (List Nat)
  chassis : Option ChassisType
  higherCaches : Map Nat HigherLevel
  reservedMemory : Map NameRef RmNode
  memory : List MemRegion
  cpus : Map Nat CpuNode
  aliases : Map NameRef DeviceNode
  phandles : PhandleMap
  properties : PropMap
  children : Map NameRef DeviceNode

/-- The node name `cpus` (`NodeNames::cpus`). -/
def cpusName : NameRef := ⟨[99, 112, 117, 115], none⟩

/-- The node name `reserved-memory` (`NodeNames::reserved_memory`). -/
def reservedMemoryName : NameRef :=
  ⟨[114, 101, 115, 101, 114, 118, 101, 100, 45, 109, 101, 109, 111, 114, 121], none⟩

/-- The node name `aliases` (`NodeNames::aliases`). -/
def aliasesName : NameRef := ⟨[97, 108, 105, 97, 115, 101, 115], none⟩

/-- Process the cache children of `/cpus` in order, threading the phandle
table; any cache error collapses to `NodeError::Cache`
(`src/node/root.rs` lines 182-190). -/
def cachesFold (fuel : Nat) : List (NameRef × RawNode) → PhandleMap →
    POut RootErr (List (Nat × HigherLevel) × PhandleMap)
  | [], ph => .ok ([], ph)
  | (_, raw) :: rest, ph =>
    match higherLevelNew fuel raw ph with
    | .err _ => .err .cache
    | .crash => .crash
    | .nofuel => .nofuel
    | .ok ((p, c), ph2) =>
      match cachesFold fuel rest ph2 with
      | .ok (l, ph3) => .ok ((p, c) :: l, ph3)
      | e => e

/-- Process the CPU children of `/cpus` in order, checking each node's
unit-address against its decoded `reg` and keying the result by `reg`
(`src/node/root.rs` lines 192-209). -/
def cpusFold (base : PropMap) (caches : Map Nat HigherLevel) (ac : Nat) :
    List (NameRef × RawNode) → POut RootErr (List (Nat × CpuNode))
  | [] => .ok []
  | (name, raw) :: rest =>
    match cpuNodeNew raw base caches ac with
    | .err e => .err (.cpu e)
    | .crash => .crash
    | .nofuel => .nofuel
    | .ok node =>
      if name.unitAddress.elim false (fun a => a ≠ node.reg) then
        .err (.regMismatch name.unitAddress node.reg)
      else
        match cpusFold base caches ac rest with
        | .ok l => .ok ((node.reg, node) :: l)
        | e => e

/-- Process the children of `/reserved-memory` in order, threading the
phandle table (`src/node/root.rs` lines 230-238). -/
def rmFold (fuel ac sc : Nat) : List (NameRef × RawNode) → PhandleMap →
    POut RootErr (List (NameRef × RmNode) × PhandleMap)
  | [], ph => .ok ([], ph)
  | (name, raw) :: rest, ph =>
    match rmNodeNew fuel raw ac sc ph with
    | .err e => .err (.reservedMemory e)
    | .crash => .crash
    | .nofuel => .nofuel
    | .ok (node, ph2) =>
      match rmFold fuel ac sc rest ph2 with
      | .ok (l, ph3) => .ok ((name, node) :: l, ph3)
      | e => e

/-- Process the root children named `memory` in order
(`src/node/root.rs` lines 240-247). -/
def memFold (ac sc : Nat) : List (NameRef × RawNode) → POut RootErr (List MemRegion)
  | [] => .ok []
  | (name, raw) :: rest =>
    match memoryRegionNew raw name ac sc with
    | .err e => .err (.memory e)
    | .crash => .crash
    | .nofuel => .nofuel
    | .ok r =>
      match memFold ac sc rest with
      | .ok l => .ok (r :: l)
      | e => e

/-- The `(Ok(cpu_addr_cells), Ok(0))` pattern with the `NonZeroU8` check of
`src/node/root.rs` lines 177-180: the `/cpus` cell counts are accepted only
when the size count decodes to exactly `0` and the address count to a
non-zero `u8` (an absent `#address-cells` defaults to `2` and is accepted;
an absent `#size-cells` defaults to `1` and is rejected). -/
def cpuCellsOk : Except CellErr Nat × Except CellErr Nat → Option Nat
  | (.ok a, .ok 0) => if a = 0 then none else some a
  | _ => none

/-- `Result::is_ok_and` comparing a decoded cell count with a value. -/
def cellEq (e : Except CellErr Nat) (v : Nat) : Bool :=
  match e with
  | .ok x => x == v
  | .error _ => false

/-- The default `find` of the `Node` trait (`src/node/mod.rs` lines
177-191): descend the children maps one path segment at a time. -/
def deviceFind : DeviceNode → NameRef → List NameRef → Option DeviceNode
  | node, sub, rest =>
    match Map.get sub node.children with
    | none => none
    | some c =>
      match rest with
      | [] => some c
      | nxt :: rs => deviceFind c nxt rs

/-- `find` started from an explicit children map (used for the root and for
reserved-memory nodes). -/
def findFrom (children : Map NameRef DeviceNode) (sub : NameRef)
    (rest : List NameRef) : Option DeviceNode :=
  match Map.get sub children with
  | none => none
  | some c =>
    match rest with
    | [] => some c
    | nxt :: rs => deviceFind c nxt rs

/-- Resolve one alias path against the built tree (`src/node/root.rs` lines
274-321): split on `/`, drop empty and invalid segments, special-case a
first segment `reserved-memory` (which must then name a reserved-memory
child and a path below it), otherwise descend the root's children. -/
def resolvePath (children : Map NameRef DeviceNode) (rm : Map NameRef RmNode)
    (content : List Nat) : Option DeviceNode :=
  let segs := ((content.splitOn 47).filter (fun s => !s.isEmpty)).filterMap
    (fun s => (nameRefTryFrom s).toOption)
  match segs with
  | [] => none
  | direct :: rest =>
    if direct = reservedMemoryName then
      match rest with
      | [] => none
      | g2 :: rest2 =>
        match Map.get g2 rm with
        | none => none
        | some rnode =>
          match rest2 with
          | [] => none
          | g3 :: rest3 => findFrom rnode.children g3 rest3
    else
      match Map.get direct children with
      | none => none
      | some c =>
        match rest with
        | [] => some c
        | g2 :: rest2 => deviceFind c g2 rest2

/-- Resolve the `/aliases` properties (`src/node/root.rs` lines 265-325):
every property whose name parses as a `NameRef` and whose NUL-terminated
path resolves becomes an alias entry; failures are skipped with a warning,
never an error. -/
def aliasesResolve (aliasProps : PropMap) (children : Map NameRef DeviceNode)
    (rm : Map NameRef RmNode) : Map NameRef DeviceNode :=
  Map.fromList (aliasProps.filterMap (fun e =>
    match (nameRefTryFrom e.1).toOption, cstrUntilNul e.2.bytes with
    | some nm, some content =>
      match resolvePath children rm content with
      | some node => some (nm, node)
      | none => none
    | _, _ => none))

/-- The property prefix of the root resolution (`src/node/root.rs` lines
142-170): `model`, `compatible`, `serial-number` and the root cell counts. -/
structure RootPrelude where
  model : ModelT
  compatible : List ModelT
  serialNumber : Option (List Nat)
  addressCells : Nat
  sizeCells : Nat
  props : PropMap

/-- The first phase of `TryFrom<RawNode> for root::Node` (`src/node/root.rs`
lines 142-170): mandatory `model` and `compatible` (both failing with
`Model`), optional `serial-number`, and the root cell counts with a non-zero
size count. -/
def rootPrelude (value : RawNode) : POut RootErr RootPrelude :=
  let rModel := Map.remove keyModel value.properties
  match rModel.1.bind (fun b => cstrUntilNul b.bytes) with
  | none => .err .model
  | some ms =>
    let model := modelOfBytes ms
    let rCompat := Map.remove keyCompatible rModel.2
    match rCompat.1.bind (fun b => parseModelList (b.bytes.length + 1) b.bytes) with
    | none => .err .model
    | some compatible =>
      let rSerial := Map.remove keySerialNumber rCompat.2
      let serialOut : Except Unit (Option (List Nat)) :=
        match rSerial.1 with
        | none => .ok none
        | some b =>
          match cstrUntilNul b.bytes with
          | some s => .ok (some s)
          | none => .error ()
      match serialOut with
      | .error () => .err .serialNumber
      | .ok serialNumber =>
        let cc := extractCellCounts rSerial.2
        match cc.1.1, cc.1.2 with
        | .error e, _ => .err (.cells e)
        | .ok _, .error e => .err (.cells e)
        | .ok addressCells, .ok sizeCells =>
          if sizeCells = 0 then .err (.cells .invalid)
          else .ok ⟨model, compatible, serialNumber, addressCells, sizeCells, cc.2⟩

/-- The remainder of the root resolution (`src/node/root.rs` lines 172-341),
after `rootPrelude`: the mandatory `/cpus` subtree (whose cell counts must
pass `cpuCellsOk`, caches resolved before CPUs), the mandatory
`/reserved-memory` subtree whose cell counts must match the root's and whose
`ranges` must be present and empty, the `memory` children, the optional
chassis type, the remaining children, and the best-effort aliases. -/
def rootRest (fuel : Nat) (children : List (NameRef × RawNode)) (pre : RootPrelude) :
    POut RootErr RootNode :=
  let model := pre.model
  let compatible := pre.compatible
  let serialNumber := pre.serialNumber
  let addressCells := pre.addressCells
  let sizeCells := pre.sizeCells
  (let rCpus := Map.remove cpusName children
   match rCpus.1 with
            | none => .err .cpuRoot
            | some cpusRoot =>
              let ccc := extractCellCounts cpusRoot.properties
              match cpuCellsOk ccc.1 with
              | none => .err .cpuRoot
              | some ca =>
                let split := Map.extractIf
                  (fun n _ => !(cpuBytes.isPrefixOf n.nodeName)) cpusRoot.children
                match cachesFold fuel split.1 Map.empty with
                | .err e => .err e
                | .crash => .crash
                | .nofuel => .nofuel
                | .ok (cachePairs, ph1) =>
                  let caches := Map.fromList cachePairs
                  match cpusFold ccc.2 caches ca split.2 with
                  | .err e => .err e
                  | .crash => .crash
                  | .nofuel => .nofuel
                  | .ok cpuPairs =>
                    let cpus := Map.fromList cpuPairs
                    let rRm := Map.remove reservedMemoryName rCpus.2
                    match rRm.1 with
                    | none => .err .reservedMemoryRoot
                    | some rmRoot =>
                      let rmcc := extractCellCounts rmRoot.properties
                      let rRanges := Map.remove keyRanges rmcc.2
                      if !(cellEq rmcc.1.1 addressCells && cellEq rmcc.1.2 sizeCells
                          && rRanges.1.elim false (fun b => U32BS.isEmpty b)) then
                        .err .reservedMemoryRoot
                      else
                        match rmFold fuel addressCells sizeCells rmRoot.children ph1 with
                        | .err e => .err e
                        | .crash => .crash
                        | .nofuel => .nofuel
                        | .ok (rmPairs, ph2) =>
                          let reservedMemory := Map.fromList rmPairs
                          let memSplit := Map.extractIf
                            (fun n _ => n.nodeName == memoryName) rRm.2
                          match memFold addressCells sizeCells memSplit.1 with
                          | .err e => .err e
                          | .crash => .crash
                          | .nofuel => .nofuel
                          | .ok memory =>
                            let rChassis := Map.remove keyChassis pre.props
                            let chassisOut : Except Unit (Option ChassisType) :=
                              match rChassis.1 with
                              | none => .ok none
                              | some b =>
                                match chassisTryFrom b with
                                | .ok c => .ok (some c)
                                | .error () => .error ()
                            match chassisOut with
                            | .error () => .err .chassis
                            | .ok chassis =>
                              let rAliases := Map.remove aliasesName memSplit.2
                              let comps := intoComponents fuel
                                (.mk rAliases.2 rChassis.2) ph2
                              match comps.2 with
                              | .err .cells => .err (.cells .invalid)
                              | .err (.child e) => .err (.child e)
                              | .crash => .crash
                              | .nofuel => .nofuel
                              | .ok (childMap, ph3) =>
                                let aliases := rAliases.1.elim Map.empty
                                  (fun an => aliasesResolve an.properties childMap
                                    reservedMemory)
                                .ok ⟨model, compatible, serialNumber, chassis, caches,
                                  reservedMemory, memory, cpus, aliases, ph3,
                                  comps.1, childMap⟩)

/-- `TryFrom<RawNode> for root::Node` (`src/node/root.rs` lines 138-341):
`rootPrelude` followed by `rootRest`. -/
def rootTryFrom (fuel : Nat) (value : RawNode) : POut RootErr RootNode :=
  match rootPrelude value with
  | .err e => .err e
  | .crash => .crash
  | .nofuel => .nofuel
  | .ok pre => rootRest fuel value.children pre

/-! ## Tokens and the structure-block loop (`src/dtb.rs`) -/

/-- Token-decoding errors (`TokenError` in `src/dtb.rs`). -/
inductive TokenErr where
  | eof
  | invalidToken (t : Nat)
  | nodeNameMalformed
  | nodeNameInvalid (e : NameRefErr)
  | propValue
  | propName
  | size
deriving DecidableEq

/-- A structure-block token (`Token` in `src/dtb.rs`). -/
inductive Token where
  | beginNode (name : NameRef)
  | endNode
  | prop (name : List Nat) (value : U32BS)
  | nop
  | tokEnd
deriving DecidableEq

/-- `Token::consume_token` (`src/dtb.rs` lines 78-117): read one big-endian
`u32` discriminant (`0x1` begin, `0x2` end-node, `0x3` property, `0x4` nop,
`0x9` end); `BeginNode` reads and validates a NUL-terminated name,
`Prop` reads a length and a strings-block offset, takes that many value
bytes, and resolves the name in the strings block.  Returns the outcome
together with the advanced stream. -/
def consumeToken (strings : List Nat) (s : U32BS) : POut TokenErr Token × U32BS :=
  match U32BS.consumeU32 s with
  | (none, s1) => (.err .eof, s1)
  | (some t, s1) =>
    if t = 1 then
      match U32BS.consumeCStr s1 with
      | none => (.err .nodeNameMalformed, s1)
      | some (nameBytes, s2) =>
        match nameRefTryFrom nameBytes with
        | .ok n => (.ok (.beginNode n), s2)
        | .error e => (.err (.nodeNameInvalid e), s2)
    else if t = 2 then (.ok .endNode, s1)
    else if t = 3 then
      match U32BS.consumeU32 s1 with
      | (none, s2) => (.err .eof, s2)
      | (some len, s2) =>
        match U32BS.consumeU32 s2 with
        | (none, s3) => (.err .eof, s3)
        | (some nameoff, s3) =>
          match U32BS.takeBytes len s3 with
          | .err () => (.err .propValue, s3)
          | .crash => (.crash, s3)
          | .nofuel => (.nofuel, s3)
          | .ok (value, s4) =>
            match cstrUntilNul (strings.drop nameoff) with
            | none => (.err .propName, s4)
            | some name => (.ok (.prop name value), s4)
    else if t = 4 then (.ok .nop, s1)
    else if t = 9 then (.ok .tokEnd, s1)
    else (.err (.invalidToken t), s1)

/-- `Token::iterate_bytes` (`src/dtb.rs` lines 119-126): the token iterator
repeatedly calls `consume_token` while the stream is nonempty, collecting the
produced outcomes; made structural with fuel. -/
def tokenSeq (strings : List Nat) : Nat → U32BS → POut Unit (List (POut TokenErr Token))
  | 0, _ => .nofuel
  | fuel + 1, s =>
    if s.isEmpty then .ok []
    else
      match tokenSeq strings fuel (consumeToken strings s).2 with
      | .ok rest => .ok ((consumeToken strings s).1 :: rest)
      | e => e

/-- Top-level parse errors (`DeviceTreeError` in `src/dtb.rs`). -/
inductive DTErr where
  | alignment
  | magic
  | size
  | index
  | token (e : TokenErr)
  | eof
  | stringE
  | property
  | parsing
  | invalidToken (t : Nat)
  | node (e : RootErr)
  | bootCpu (id : Nat)
  | tooManyEnds
  | invalidProp
  | mismatchedNodes
  | badRoots (names : List NameRef)
  | badRootName (n : NameRef)
  | badDepth (d : Nat)
  | newerVersion (version lastComp : Nat)
  | stringsIndex (off size : Nat)
  | structIndex (off size : Nat)
deriving DecidableEq

/-- A parsed device tree (`DeviceTree` in `src/dtb.rs`). -/
structure DevTree where
  root : RootNode
  version : Nat
  lastCompatibleVersion : Nat
  bootCpu : CpuNode

/-- The state of the raw-tree construction loop of `from_bytes`
(`src/dtb.rs` lines 313-316): the three parallel stacks (the head of each
list is the innermost frame; `properties` starts empty, `children` with the
single implicit root frame) and the pending result (`device_tree`, initially
the `EoF` error, here `none`). -/
structure LoopSt where
  properties : List PropMap
  children : List (List (NameRef × RawNode))
  names : List NameRef
  result : Option DevTree

/-- One iteration of the token loop of `from_bytes`
(`src/dtb.rs` lines 317-396). `BeginNode` pushes a frame; `EndNode` pops one
and appends the built `RawNode` to the frame below (no frame to pop or to
append to is `TooManyEnds`; desynchronized stacks would be the `expect`
crashes); `Prop` inserts into the innermost property map (no open frame is
`InvalidProp`, a duplicate key is `Parsing`); `End` requires no previous
`End`, exactly one remaining frame holding exactly one root child whose name
is empty with no unit-address, resolves the root, and looks up the boot CPU
by `boot_cpuid_phys` in the CPU map. -/
def loopStep (treeFuel version lastComp bootCpuid : Nat) (st : LoopSt) :
    Token → POut DTErr LoopSt
  | .beginNode name =>
    .ok ⟨Map.empty :: st.properties, [] :: st.children, name :: st.names, st.result⟩
  | .endNode =>
    match st.names with
    | [] => .err .tooManyEnds
    | name :: names2 =>
      match st.children with
      | [] => .crash
      | c :: children2 =>
        match st.properties with
        | [] => .crash
        | p :: props2 =>
          let node := rawNodeNew c p
          match children2 with
          | [] => .err .tooManyEnds
          | c2 :: children3 =>
            .ok ⟨props2, (c2 ++ [(name, node)]) :: children3, names2, st.result⟩
  | .prop name value =>
    match st.properties with
    | [] => .err .invalidProp
    | p :: props2 =>
      let ins := Map.insert name value p
      if ins.2.isSome then .err .parsing
      else .ok ⟨ins.1 :: props2, st.children, st.names, st.result⟩
  | .nop => .ok st
  | .tokEnd =>
    if st.result.isSome then .err .tooManyEnds
    else
      match st.children with
      | [c] =>
        match c with
        | [(name, root)] =>
          if name.nodeName = [] ∧ name.unitAddress = none then
            match rootTryFrom treeFuel root with
            | .err e => .err (.node e)
            | .crash => .crash
            | .nofuel => .nofuel
            | .ok r =>
              match Map.get bootCpuid r.cpus with
              | none => .err (.bootCpu bootCpuid)
              | some bc =>
                .ok ⟨st.properties, [], st.names, some ⟨r, version, lastComp, bc⟩⟩
          else .err (.badRootName name)
        | roots => .err (.badRoots (roots.map Prod.fst))
      | children => .err (.badDepth children.length)

/-- The token loop of `from_bytes`: iterate `consume_token` until the stream
is empty, feeding each token to `loopStep`; an empty stream yields the
pending result (`EoF` when no `End` token ever completed). -/
def fromBytesLoop (strings : List Nat) (treeFuel version lastComp bootCpuid : Nat) :
    Nat → U32BS → LoopSt → POut DTErr DevTree
  | 0, _, _ => .nofuel
  | fuel + 1, bytes, st =>
    if bytes.isEmpty then
      match st.result with
      | some t => .ok t
      | none => .err .eof
    else
      match consumeToken strings bytes with
      | (.err e, _) => .err (.token e)
      | (.crash, _) => .crash
      | (.nofuel, _) => .nofuel
      | (.ok tok, rest) =>
        match loopStep treeFuel version lastComp bootCpuid st tok with
        | .ok st2 => fromBytesLoop strings treeFuel version lastComp bootCpuid fuel rest st2
        | .err e => .err e
        | .crash => .crash
        | .nofuel => .nofuel

/-- Whether the stream contains a decodable `End` token before its first
decode error, with the same traversal as the loop. -/
def structHasEnd (strings : List Nat) : Nat → U32BS → Bool
  | 0, _ => false
  | fuel + 1, bytes =>
    if bytes.isEmpty then false
    else
      match consumeToken strings bytes with
      | (.ok .tokEnd, _) => true
      | (.ok _, rest) => structHasEnd strings fuel rest
      | (_, _) => false

/-- The decoded header of a blob: the structure-block slice, the strings
block, and the version/compatibility/boot-CPU fields. -/
structure Header where
  structSlice : U32BS
  strings : List Nat
  version : Nat
  lastComp : Nat
  bootCpu : Nat
deriving DecidableEq

/-- The header phase of `DeviceTree::from_bytes` (`src/dtb.rs` lines
201-311): check the magic word, bound the buffer by `totalsize` (rounded up
to whole `u64`s), read the ten header words, reject a
`last_comp_version` above `17` (`NewerVersion`), require the structure block
offset and size to be 4-byte aligned (`Alignment`), and carve out the
structure and strings blocks with bounds checks (`StructIndex`,
`StringsIndex`).  The `usize::try_from(u32)` conversions never fail on a
64-bit target and are omitted. -/
def parseHeader (dtb : List Nat) : POut DTErr Header :=
  if dtb.length < 8 then .err .eof
  else if be32 dtb ≠ 0xD00DFEED then .err .magic
  else
    let dtSize := be32 (dtb.drop 4)
    let k := (dtSize + 7) / 8
    if dtb.length < 8 * k then .err .eof
    else
      let dtBytes := dtb.take (8 * k)
      let words := wordsOfBytes dtBytes
      if words.length < 10 then .err .eof
      else
        let structOff := words.getD 2 0
        let stringsOff := words.getD 3 0
        let version := words.getD 5 0
        let lastComp := words.getD 6 0
        if lastComp > 17 then .err (.newerVersion version lastComp)
        else
          let bootCpu := words.getD 7 0
          let stringsSize := words.getD 8 0
          let structSize := words.getD 9 0
          if structOff % 4 ≠ 0 ∨ structSize % 4 ≠ 0 then .err .alignment
          else
            let idx := (structOff + 3) / 4
            let elems := (structSize + 3) / 4
            if words.length < idx + elems then .err (.structIndex structOff structSize)
            else
              match U32BS.mkNew ((words.drop idx).take elems) structSize with
              | none => .crash
              | some s =>
                if stringsOff + stringsSize ≤ dtBytes.length then
                  .ok ⟨s, (dtBytes.drop stringsOff).take stringsSize,
                    version, lastComp, bootCpu⟩
                else .err (.stringsIndex stringsOff stringsSize)

/-- The dispatch of `from_bytes` on the parsed header: run the token loop
over the structure block, or propagate the header error.  The loop fuel
exceeds the word count of the structure block (every iteration consumes at
least one word); the tree fuel passed on to the root resolution exceeds
twice the word count, which bounds the size of any raw tree encoded in the
block. -/
def headerCase (p : POut DTErr Header) : POut DTErr DevTree :=
  match p with
  | .err e => .err e
  | .crash => .crash
  | .nofuel => .nofuel
  | .ok h =>
    fromBytesLoop h.strings (2 * h.structSlice.lenU32s + 2) h.version h.lastComp
      h.bootCpu (h.structSlice.lenU32s + 1) h.structSlice ⟨[], [[]], [], none⟩

/-- `DeviceTree::from_bytes` (`src/dtb.rs` lines 201-398): parse the header,
then run the token loop over the structure block. -/
def fromBytes (dtb : List Nat) : POut DTErr DevTree :=
  headerCase (parseHeader dtb)

/-! ## The chosen node (`src/node/chosen.rs`) -/

/-- Errors of `/chosen` resolution (`Error` in `src/node/chosen.rs`).  The
enum declares separate stdout and stdin variants. -/
inductive ChosenErr where
  | bootArg
  | stdoutPathInvalid
  | stdoutDanglingPath (path : List Nat)
  | stdinPathInvalid
  | stdinDanglingPath (path : List Nat)
deriving DecidableEq

/-- The resolved `/chosen` node (`Chosen` in `src/node/chosen.rs`, without
the `rpi`-feature fields). -/
structure Chosen where
  bootArgs : Option (List Nat)
  stdout : Option DeviceNode
  stdin : Option DeviceNode
  miscellaneous : PropMap

/-- The descent of the `Node` trait's `find_str` (`src/node/mod.rs` lines
193-205): segments are parsed lazily with `unwrap`, so an invalid segment
that is actually reached crashes. -/
def findStrFrom (children : Map NameRef DeviceNode) :
    NameRef → List (List Nat) → POut Unit (Option DeviceNode)
  | sub, rawRest =>
    match Map.get sub children with
    | none => .ok none
    | some c =>
      match rawRest with
      | [] => .ok (some c)
      | raw :: rest =>
        match (nameRefTryFrom raw).toOption with
        | none => .crash
        | some nxt => findStrFrom c.children nxt rest

/-- `find_str` applied to the root node: split the path on `/`, drop empty
segments, and descend the root's children map. -/
def rootFindStr (root : RootNode) (path : List Nat) : POut Unit (Option DeviceNode) :=
  let rawSegs := (path.splitOn 47).filter (fun s => !s.isEmpty)
  match rawSegs with
  | [] => .ok none
  | raw :: rest =>
    match (nameRefTryFrom raw).toOption with
    | none => .crash
    | some d => findStrFrom root.children d rest

/-- The `rc_from_node` helper of `Chosen::from_node` (`src/node/chosen.rs`
lines 52-66): remove the given path property, parse it as a NUL-terminated
path and resolve it against the root.  Note that the error constructors are
hard-coded to the *stdout* variants (`StdoutPathInvalid`,
`StdoutDanglingPath`) for every key the helper is applied to, including
`stdin-path`. -/
def rcFromNode (props : PropMap) (key : List Nat) (root : RootNode) :
    POut ChosenErr (Option DeviceNode) × PropMap :=
  match Map.remove key props with
  | (none, p1) => (.ok none, p1)
  | (some bytes, p1) =>
    match cstrUntilNul bytes.bytes with
    | none => (.err .stdoutPathInvalid, p1)
    | some s =>
      match rootFindStr root s with
      | .ok none => (.err (.stdoutDanglingPath s), p1)
      | .ok (some node) => (.ok (some node), p1)
      | .err _ => (.crash, p1)
      | .crash => (.crash, p1)
      | .nofuel => (.nofuel, p1)

/-- `Chosen::from_node` (`src/node/chosen.rs` lines 47-115): children of
`/chosen` are unimplemented (a crash); `bootargs` is a plain string;
`stdout-path` and `stdin-path` are resolved through `rc_from_node`, and an
absent `stdin-path` defaults the stdin device to the resolved stdout. -/
def chosenFromNode (chosen : RawNode) (root : RootNode) : POut ChosenErr Chosen :=
  if !chosen.children.isEmpty then .crash
  else
    match Map.remove keyBootargs chosen.properties with
    | (baV, p1) =>
      let baOut : Except Unit (Option (List Nat)) :=
        match baV with
        | none => .ok none
        | some b =>
          match cstrUntilNul b.bytes with
          | some s => .ok (some s)
          | none => .error ()
      match baOut with
      | .error () => .err .bootArg
      | .ok bootArgs =>
        match rcFromNode p1 keyStdoutPath root with
        | (.err e, _) => .err e
        | (.crash, _) => .crash
        | (.nofuel, _) => .nofuel
        | (.ok stdout, p2) =>
          match rcFromNode p2 keyStdinPath root with
          | (.err e, _) => .err e
          | (.crash, _) => .crash
          | (.nofuel, _) => .nofuel
          | (.ok stdinRaw, p3) =>
            .ok ⟨bootArgs, stdout, stdinRaw.orElse (fun _ => stdout), p3⟩

/-! ## Concrete inputs -/

/-- A single-cell property value. -/
def cell (v : Nat) : U32BS := ⟨[v], 0⟩

/-- A string property value: the given bytes (including their NUL
terminator) padded with zero bytes to a word boundary. -/
def strSlice (content : List Nat) : U32BS :=
  let len := content.length
  let k := (len + 3) / 4
  ⟨wordsOfBytes (content ++ List.replicate (4 * k - len) 0), 4 * k - len⟩

/-- The byte string `cache\0`. -/
def cacheNul : List Nat := [99, 97, 99, 104, 101, 0]

/-- A minimal valid cache node: `compatible = "cache"`, the given phandle,
`cache-level = 2`. -/
def cacheRaw (phandle : Nat) : RawNode :=
  rawNodeNew [] (Map.fromList
    [(keyCompatible, strSlice cacheNul), (keyPhandle, cell phandle),
     (keyCacheLevel, cell 2)])

/-- A tree whose `/cpus` holds two cache nodes claiming the same phandle
`5`: root `model`/`compatible` present, `/cpus` with one address cell and
zero size cells, no CPU children, and a matching `/reserved-memory`. -/
def c2tree : RawNode :=
  rawNodeNew
    [(cpusName,
      rawNodeNew
        [(⟨[108, 50, 97], none⟩, cacheRaw 5), (⟨[108, 50, 98], none⟩, cacheRaw 5)]
        (Map.fromList [(keyAddressCells, cell 1), (keySizeCells, cell 0)])),
     (reservedMemoryName,
      rawNodeNew [] (Map.fromList
        [(keyAddressCells, cell 2), (keySizeCells, cell 1), (keyRanges, ⟨[], 0⟩)]))]
    (Map.fromList [(keyModel, strSlice [109, 0]), (keyCompatible, strSlice [99, 0])])

/-- The phandle values claimed by the higher-level caches of a successfully
resolved root, or `[]` on failure. -/
def cachePhandleKeys (p : POut RootErr RootNode) : List Nat :=
  match p with
  | .ok r => r.higherCaches.map Prod.fst
  | _ => []

/-- The keys of the global phandle table of a successfully resolved root, or
a non-empty sentinel on failure. -/
def phandleKeys (p : POut RootErr RootNode) : List Nat :=
  match p with
  | .ok r => r.phandles.map Prod.fst
  | _ => [1]

/-- The returned error of an outcome, when it is one. -/
def POut.errOf {ε α : Type} : POut ε α → Option ε
  | .err e => some e
  | _ => none

/-- A tree whose `/cpus` carries `#size-cells = 0` but **no**
`#address-cells` property, with no CPU children; the rest of the tree is
complete enough for resolution to succeed. -/
def c7tree : RawNode :=
  rawNodeNew
    [(cpusName, rawNodeNew [] (Map.fromList [(keySizeCells, cell 0)])),
     (reservedMemoryName,
      rawNodeNew [] (Map.fromList
        [(keyAddressCells, cell 2), (keySizeCells, cell 1), (keyRanges, ⟨[], 0⟩)]))]
    (Map.fromList [(keyModel, strSlice [109, 0]), (keyCompatible, strSlice [99, 0])])

/-- An empty root node used as the resolution context for `/chosen`. -/
def c6root : RootNode :=
  ⟨.other [], [], none, none, [], [], [], [], [], [], [], []⟩

/-- A `/chosen` node whose only property is `stdin-path = "/x"`, a path that
does not exist under `c6root`. -/
def c6chosen : RawNode :=
  rawNodeNew [] (Map.fromList [(keyStdinPath, strSlice [47, 120, 0])])

/-- A canonical minimal DTB: a 40-byte header (`totalsize = 56`, structure
block of 16 bytes at offset 40, empty strings block at offset 56), followed
by the four structure words `BeginNode`, the empty NUL-padded name,
`EndNode`, `End`.  The version, compatibility, boot-CPU and
memory-reservation-offset fields are parameters. -/
def minimalDtb (version lastComp bootCpu rsvOff : Nat) : List Nat :=
  byteSplit32 0xD00DFEED ++ byteSplit32 56 ++ byteSplit32 40 ++ byteSplit32 56 ++
  byteSplit32 rsvOff ++ byteSplit32 version ++ byteSplit32 lastComp ++
  byteSplit32 bootCpu ++ byteSplit32 0 ++ byteSplit32 16 ++
  byteSplit32 1 ++ byteSplit32 0 ++ byteSplit32 2 ++ byteSplit32 9

/-- The header and structure words of `minimalDtb`, as `u32` values. -/
def minWords (version lastComp bootCpu rsvOff : Nat) : List Nat :=
  [0xD00DFEED, 56, 40, 56, rsvOff, version, lastComp, bootCpu, 0, 16, 1, 0, 2, 9]

/-- The structure block of `goodDtb`: an empty-named root with `model` and
`compatible`, a `/cpus` node (one address cell, zero size cells) holding
`cpu@0` with `device_type = "cpu"` and `reg = <0>`, a `/reserved-memory`
node with cells matching the root and an empty `ranges`, then the `End`
token — followed by one trailing `Nop` word. -/
def goodStructWords : List Nat :=
  [1, 0,
   3, 2, 0, 0x6D000000,
   3, 2, 6, 0x63000000,
   1, 0x63707573, 0,
   3, 4, 17, 1,
   3, 4, 32, 0,
   1, 0x63707540, 0x30000000,
   3, 4, 44, 0x63707500,
   3, 4, 56, 0,
   2,
   2,
   1, 0x72657365, 0x72766564, 0x2D6D656D, 0x6F727900,
   3, 4, 17, 2,
   3, 4, 32, 1,
   3, 0, 60,
   2,
   2,
   9,
   4]

/-- The strings block of `goodDtb`: the property names `model`,
`compatible`, `#address-cells`, `#size-cells`, `device_type`, `reg`,
`ranges`, NUL-terminated, at offsets 0, 6, 17, 32, 44, 56, 60. -/
def goodStrings : List Nat :=
  keyModel ++ [0] ++ keyCompatible ++ [0] ++ keyAddressCells ++ [0] ++
  keySizeCells ++ [0] ++ keyDeviceType ++ [0] ++ keyReg ++ [0] ++ keyRanges ++ [0]

/-- A complete, valid DTB whose structure block carries one trailing `Nop`
token after the single `End` token: header (`totalsize = 323`, structure
block of 216 bytes at offset 40, strings block of 67 bytes at offset 256,
version 17/16, boot CPU 0), structure words, strings, and five padding
bytes up to a whole number of `u64`s. -/
def goodDtb : List Nat :=
  byteSplit32 0xD00DFEED ++ byteSplit32 323 ++ byteSplit32 40 ++ byteSplit32 256 ++
  byteSplit32 0 ++ byteSplit32 17 ++ byteSplit32 16 ++ byteSplit32 0 ++
  byteSplit32 67 ++ byteSplit32 216 ++
  bytesOfWords goodStructWords ++ goodStrings ++ List.replicate 5 0

/-- The `reg` of the boot CPU of a successful parse. -/
def bootCpuReg (p : POut DTErr DevTree) : Option Nat :=
  match p with
  | .ok t => some t.bootCpu.reg
  | _ => none

/-- The `boot_cpuid_phys` header field of a blob whose header parses. -/
def bootHeaderId (dtb : List Nat) : Option Nat :=
  match parseHeader dtb with
  | .ok h => some h.bootCpu
  | _ => none

/-! ## Map lemmas -/

/-- A map whose `Nat` keys are strictly increasing, the invariant every map
built through the `Map` API maintains. -/
def NatMapSorted {V : Type} (m : Map Nat V) : Prop :=
  List.Pairwise (fun a b => a.1 < b.1) m

theorem map_get_none_of_forall_lt {V : Type} (k : Nat) :
    ∀ (m : Map Nat V), (∀ e ∈ m, k < e.1) → Map.get k m = none := by
  intro m
  induction m with
  | nil => intro _; rfl
  | cons e rest ih =>
    intro h
    have hk : k < e.1 := h e (List.mem_cons_self e rest)
    have hc : compare k e.1 = Ordering.lt := Nat.compare_eq_lt.2 hk
    simp only [Map.get, KeyCmp.cmp, hc]
    exact ih (fun x hx => h x (List.mem_cons_of_mem e hx))

theorem map_insert_snd_eq_get {V : Type} (k : Nat) (v : V) :
    ∀ (m : Map Nat V), NatMapSorted m → (Map.insert k v m).2 = Map.get k m := by
  intro m
  induction m with
  | nil => intro _; rfl
  | cons e rest ih =>
    intro hs
    have hs2 : NatMapSorted rest := (List.pairwise_cons.1 hs).2
    have hlt : ∀ x ∈ rest, e.1 < x.1 := (List.pairwise_cons.1 hs).1
    rcases hc : compare k e.1 with _ | _ | _
    · have : Map.get k rest = none := by
        refine map_get_none_of_forall_lt k rest (fun x hx => ?_)
        exact Nat.lt_trans (Nat.compare_eq_lt.1 hc) (hlt x hx)
      simp only [Map.insert, Map.get, KeyCmp.cmp, hc, this]
    · simp only [Map.insert, Map.get, KeyCmp.cmp, hc]
    · simp only [Map.insert, Map.get, KeyCmp.cmp, hc]
      exact ih hs2

theorem map_remove_absent {K V : Type} [KeyCmp K] (k : K) :
    ∀ (m : Map K V), Map.get k m = none → Map.remove k m = (none, m) := by
  intro m
  induction m with
  | nil => intro _; rfl
  | cons e rest ih =>
    intro h
    rcases hc : KeyCmp.cmp k e.1 with _ | _ | _
    · simp only [Map.get, hc] at h
      simp only [Map.remove, hc, ih h]
    · simp only [Map.get, hc] at h
      exact absurd h (by simp)
    · simp only [Map.get, hc] at h
      simp only [Map.remove, hc, ih h]

/-! ## Claim C10 -/

/-- Claim C10 (confirmed): decoding a status property value, every C string
beginning with the prefix `fail` is accepted as `Fail` with the bytes after
the prefix as the code; besides such strings only `okay`, `disabled` and
`reserved` are accepted, and every other value is rejected with an error
carrying the offending bytes. -/
theorem claim_C10 (v s : List Nat) (h : cstrUntilNul v = some s) :
    (∀ code, s = failBytes ++ code → statusTryFrom v = .ok (.fail code))
      ∧ (s = okayBytes → statusTryFrom v = .ok .okSt)
      ∧ (s = disabledBytes → statusTryFrom v = .ok .disabled)
      ∧ (s = reservedBytes → statusTryFrom v = .ok .reservedSt)
      ∧ ((∀ code, s ≠ failBytes ++ code) → s ≠ okayBytes → s ≠ disabledBytes →
          s ≠ reservedBytes → statusTryFrom v = .error s) := by
  refine ⟨?_, ?_, ?_, ?_, ?_⟩
  · intro code hc
    subst hc
    unfold statusTryFrom
    rw [h]
    rfl
  · intro hc; subst hc; unfold statusTryFrom; rw [h]; rfl
  · intro hc; subst hc; unfold statusTryFrom; rw [h]; rfl
  · intro hc; subst hc; unfold statusTryFrom; rw [h]; rfl
  · intro hf ho hd hr
    have ht : s.take 4 ≠ failBytes := by
      intro heq
      exact hf (s.drop 4) (by rw [← heq, List.take_append_drop])
    simp [statusTryFrom, h, ht, ho, hd, hr]

/-- Claim C10 witness: the status bytes `fail-s\0` decode to `Fail` with
code `-s`. -/
theorem claim_C10_witness :
    cstrUntilNul [102, 97, 105, 108, 45, 115, 0] = some [102, 97, 105, 108, 45, 115]
      ∧ statusTryFrom [102, 97, 105, 108, 45, 115, 0] = .ok (.fail [45, 115]) :=
  ⟨by decide,
    (claim_C10 [102, 97, 105, 108, 45, 115, 0] [102, 97, 105, 108, 45, 115]
      (by decide)).1 [45, 115] (by decide)⟩

/-! ## Claim C6 -/

/-- Claim C6 (code bug): resolving a `/chosen` node whose `stdin-path`
property holds the dangling path `/x` fails with `StdoutDanglingPath`, not
the `StdinDanglingPath` variant the error enum declares for it — the
`rc_from_node` helper hard-codes the stdout error constructors for both
keys, and the stdin variants are never constructed. -/
theorem claim_C6 :
    POut.errOf (chosenFromNode c6chosen c6root)
        = some (.stdoutDanglingPath [47, 120])
      ∧ ChosenErr.stdoutDanglingPath [47, 120] ≠ ChosenErr.stdinDanglingPath [47, 120] := by
  decide

/-! ## Claim C2 -/

/-- Claim C2 counterexample: `c2tree` carries two cache nodes with the same
phandle `5`, yet root resolution succeeds; both duplicates appear among the
higher-level caches, and the global phandle table stays empty — cache
phandles are never registered or checked. -/
theorem claim_C2_counterexample :
    (rootTryFrom 64 c2tree).isOk = true
      ∧ cachePhandleKeys (rootTryFrom 64 c2tree) = [5, 5]
      ∧ phandleKeys (rootTryFrom 64 c2tree) = [] := by
  decide

set_option maxHeartbeats 1600000 in
/-- Claim C2 (amended): a *device* node claiming a phandle already present
in the global table is rejected with `DuplicatePHandle`, regardless of which
node was processed first (the check fires whenever the value is already
there); but a cache node's phandle is only handed back to the caller — a
childless cache leaves the global phandle table untouched, so phandle values
claimed by cache nodes are not checked for uniqueness. -/
theorem claim_C2 :
    (∀ (fuel : Nat) (raw : RawNode) (ac sc : Option Nat) (ph ph2 : PhandleMap)
        (dp : DevProps) (pairs : List (NameRef × DeviceNode)) (fp : PropMap)
        (p : Nat) (q : DeviceNode),
        devPropsPhase raw.properties ac sc = .ok dp →
        dp.phandle = some p →
        deviceNodesFold fuel raw.children dp.childAddrCells.toOption
          dp.childSizeCells.toOption ph = .ok (pairs, ph2) →
        interruptExtract dp.props = .ok fp →
        NatMapSorted ph2 →
        Map.get p ph2 = some q →
        deviceNodeNew (fuel + 1) raw ac sc ph = .err .duplicatePHandle)
      ∧ (∀ (fuel : Nat) (props : PropMap) (ph : PhandleMap) (p : Nat)
          (c : HigherLevel) (ph2 : PhandleMap),
          higherLevelNew fuel (.mk [] props) ph = .ok ((p, c), ph2) →
          ph2 = ph) := by
  constructor
  · intro fuel raw ac sc ph ph2 dp pairs fp p q h1 h2 h3 h4 hs hget
    simp only [deviceNodeNew]
    rw [h1]
    simp only [h3, h4, h2]
    rw [map_insert_snd_eq_get p _ ph2 hs, hget]
    rfl
  · intro fuel props ph p c ph2 h
    simp only [higherLevelNew, intoComponents, RawNode.children, RawNode.properties] at h
    split at h
    · exact absurd h (by simp)
    · split at h
      · exact absurd h (by simp)
      · split at h
        · exact absurd h (by simp)
        · split at h
          · rename_i childMap phX heq
            split at heq
            · exact absurd heq (by simp)
            · split at heq
              · rename_i pairs phY heq2
                rcases fuel with _ | fuel2
                · exact absurd heq2 (by simp [deviceNodesFold])
                · simp only [deviceNodesFold, POut.ok.injEq, Prod.mk.injEq] at heq2
                  simp only [POut.ok.injEq, Prod.mk.injEq] at h heq
                  exact (heq2.2.trans (heq.2.trans h.2)).symm
              · exact absurd heq (by simp)
              · exact absurd heq (by simp)
              · exact absurd heq (by simp)
          · exact absurd h (by simp)
          · exact absurd h (by simp)
          · exact absurd h (by simp)
          · exact absurd h (by simp)

/-- A device node carrying no data, used as a phandle-table occupant. -/
def c2wNode : DeviceNode := .mk [] none none none none .okSt []

/-- A phandle table in which phandle `7` is already claimed. -/
def c2wPh : PhandleMap := [(7, c2wNode)]

/-- A childless raw node claiming phandle `7`. -/
def c2wRaw : RawNode := .mk [] [(keyPhandle, cell 7)]

/-- The decoded property phase of `c2wRaw`. -/
def c2wDp : DevProps := ⟨.ok 2, .ok 1, none, none, none, none, .okSt, some 7, []⟩

/-- The cache node built from `cacheRaw 5`. -/
def c2wCache : HigherLevel := ⟨⟨none, none, none, none⟩, 2, [], []⟩

/-- Claim C2 witness: resolving `c2wRaw` against a table already holding
phandle `7` is rejected with `DuplicatePHandle`, while resolving the cache
node `cacheRaw 5` leaves the same table untouched. -/
theorem claim_C2_witness :
    POut.errOf (deviceNodeNew 2 c2wRaw (some 2) (some 1) c2wPh) = some .duplicatePHandle
      ∧ higherLevelNew 1 (.mk [] (cacheRaw 5).properties) c2wPh
          = .ok ((5, c2wCache), c2wPh) := by
  constructor
  · have h := claim_C2.1 1 c2wRaw (some 2) (some 1) c2wPh c2wPh c2wDp [] [] 7 c2wNode
      rfl rfl rfl rfl (List.pairwise_singleton _ _) rfl
    show POut.errOf (deviceNodeNew (1 + 1) c2wRaw (some 2) (some 1) c2wPh)
      = some .duplicatePHandle
    rw [h]
    rfl
  · have h2 := claim_C2.2 1 (cacheRaw 5).properties c2wPh 5 c2wCache c2wPh (by rfl)
    exact h2 ▸ (by rfl)

/-! ## Claim C7 -/

/-- Claim C7 counterexample: `c7tree` has a `/cpus` node without any
`#address-cells` property (second conjunct), yet root resolution succeeds —
it is not rejected with `CpuRoot`. -/
theorem claim_C7_counterexample :
    (rootTryFrom 64 c7tree).isOk = true
      ∧ (Map.get cpusName c7tree.children).elim false
          (fun n => (Map.get keyAddressCells n.properties).isNone) = true := by
  decide

/-- Claim C7 (amended): after the root property prelude, a `/cpus` child
whose cell counts fail `cpuCellsOk` — in particular one whose `#size-cells`
does not decode to exactly `0` — is rejected with `CpuRoot`; but
`#address-cells` need not be present: an absent `#address-cells` together
with a `#size-cells` of `0` passes the check with the default of two address
cells. -/
theorem claim_C7 :
    (∀ (fuel : Nat) (value : RawNode) (pre : RootPrelude),
        rootPrelude value = .ok pre →
        rootTryFrom fuel value = rootRest fuel value.children pre)
      ∧ (∀ (fuel : Nat) (children : List (NameRef × RawNode)) (pre : RootPrelude)
          (cpusRoot : RawNode) (crest : List (NameRef × RawNode)),
          Map.remove cpusName children = (some cpusRoot, crest) →
          cpuCellsOk (extractCellCounts cpusRoot.properties).1 = none →
          rootRest fuel children pre = .err .cpuRoot)
      ∧ (∀ (props props2 : PropMap) (bytes : U32BS),
          Map.get keyAddressCells props = none →
          Map.remove keySizeCells props = (some bytes, props2) →
          parseCellsProp bytes = .ok 0 →
          cpuCellsOk (extractCellCounts props).1 = some 2) := by
  refine ⟨?_, ?_, ?_⟩
  · intro fuel value pre h
    simp only [rootTryFrom, h]
  · intro fuel children pre cpusRoot crest h1 h2
    simp only [rootRest, h1, h2]
  · intro props props2 bytes h1 h2 h3
    have hr := map_remove_absent keyAddressCells props h1
    simp only [extractCellCounts, hr, h2, h3, Option.elim]
    rfl

/-- The children of a root whose `/cpus` carries `#size-cells = 2`. -/
def c7wChildren : List (NameRef × RawNode) :=
  [(cpusName, .mk [] [(keySizeCells, cell 2)])]

/-- A trivial root prelude. -/
def c7wPre : RootPrelude := ⟨.other [], [], none, 2, 1, []⟩

/-- Claim C7 witness: a `/cpus` with `#size-cells = 2` is rejected with
`CpuRoot`, and a `/cpus` property map holding only `#size-cells = 0` passes
the cell check with the defaulted two address cells. -/
theorem claim_C7_witness :
    POut.errOf (rootRest 1 c7wChildren c7wPre) = some .cpuRoot
      ∧ cpuCellsOk (extractCellCounts [(keySizeCells, cell 0)]).1 = some 2 := by
  constructor
  · have h := claim_C7.2.1 1 c7wChildren c7wPre (.mk [] [(keySizeCells, cell 2)]) []
      rfl rfl
    rw [h]
    rfl
  · exact claim_C7.2.2 [(keySizeCells, cell 0)] [] (cell 0) (by decide) rfl rfl

/-! ## Claims C1 and C3: concrete counterexamples -/

/-- Claim C1 counterexample: parsing the canonical minimal DTB (well-formed
header, empty root node, single `End` token) does not succeed — the root
resolution demands a `model` property and the parse fails with
`Node(Model)`. -/
theorem claim_C1_counterexample :
    POut.errOf (fromBytes (minimalDtb 17 16 0 0)) = some (.node .model) := by
  decide

/-- Claim C3 counterexample: `goodDtb`'s structure block holds exactly one
`End` token followed by a leftover `Nop` word, yet the parse succeeds —
leftover stream bytes after the `End` token are not rejected. -/
theorem claim_C3_counterexample :
    (fromBytes goodDtb).isOk = true
      ∧ goodStructWords.drop 52 = [9, 4]
      ∧ goodStructWords.count 9 = 1 := by
  decide

/-! ## Claim C3 -/

theorem loopStep_keep (tf v lc bc : Nat) (st : LoopSt) (tok : Token) (st2 : LoopSt)
    (hne : tok ≠ Token.tokEnd) (h : loopStep tf v lc bc st tok = .ok st2) :
    st2.result = st.result := by
  cases tok with
  | beginNode name =>
    simp only [loopStep, POut.ok.injEq] at h
    rw [← h]
  | endNode =>
    simp only [loopStep] at h
    split at h
    · exact POut.noConfusion h
    · split at h
      · exact POut.noConfusion h
      · split at h
        · exact POut.noConfusion h
        · split at h
          · exact POut.noConfusion h
          · simp only [POut.ok.injEq] at h
            rw [← h]
  | prop name value =>
    simp only [loopStep] at h
    split at h
    · exact POut.noConfusion h
    · split at h
      · exact POut.noConfusion h
      · simp only [POut.ok.injEq] at h
        rw [← h]
  | nop =>
    simp only [loopStep, POut.ok.injEq] at h
    rw [← h]
  | tokEnd => exact absurd rfl hne

theorem loop_hasEnd (strings : List Nat) (tf v lc bc : Nat) :
    ∀ (fuel : Nat) (bytes : U32BS) (st : LoopSt) (t : DevTree),
      fromBytesLoop strings tf v lc bc fuel bytes st = .ok t →
      st.result = none → structHasEnd strings fuel bytes = true := by
  intro fuel
  induction fuel with
  | zero =>
    intro bytes st t h _
    exact POut.noConfusion h
  | succ f ih =>
    intro bytes st t h hres
    simp only [fromBytesLoop] at h
    split at h
    · split at h
      · rename_i t0 ht0
        rw [hres] at ht0
        exact Option.noConfusion ht0
      · exact POut.noConfusion h
    · rename_i hemp
      have hemp2 : bytes.isEmpty = false := by
        cases hb : bytes.isEmpty
        · rfl
        · exact absurd hb hemp
      split at h
      · exact POut.noConfusion h
      · exact POut.noConfusion h
      · exact POut.noConfusion h
      · rename_i tok rest hct
        split at h
        · rename_i st2 hstep
          cases tok with
          | tokEnd => simp [structHasEnd, hemp2, hct]
          | beginNode name =>
            simp only [structHasEnd, hemp2, Bool.false_eq_true, if_false, hct]
            exact ih rest st2 t h
              ((loopStep_keep tf v lc bc st _ st2
                (fun hc => Token.noConfusion hc) hstep).trans hres)
          | endNode =>
            simp only [structHasEnd, hemp2, Bool.false_eq_true, if_false, hct]
            exact ih rest st2 t h
              ((loopStep_keep tf v lc bc st _ st2
                (fun hc => Token.noConfusion hc) hstep).trans hres)
          | prop name value =>
            simp only [structHasEnd, hemp2, Bool.false_eq_true, if_false, hct]
            exact ih rest st2 t h
              ((loopStep_keep tf v lc bc st _ st2
                (fun hc => Token.noConfusion hc) hstep).trans hres)
          | nop =>
            simp only [structHasEnd, hemp2, Bool.false_eq_true, if_false, hct]
            exact ih rest st2 t h
              ((loopStep_keep tf v lc bc st _ st2
                (fun hc => Token.noConfusion hc) hstep).trans hres)
        · exact POut.noConfusion h
        · exact POut.noConfusion h
        · exact POut.noConfusion h

/-- Claim C3 (corrected): each malformed ending of the raw-tree construction
is rejected with its own specifically-named error — an `EndNode` with no open
frame and an `End` after a previous `End` give `TooManyEnds`, an `End` at a
stack depth other than one gives `BadDepth`, a single frame holding a number
of roots other than one gives `BadRoots`, a root whose name is not the empty
node-name without unit-address gives `BadRootName` — and a successful
construction requires a decodable `End` token in the stream; but leftover
stream bytes after the `End` token are *not* rejected (see the
counterexample, where a trailing `Nop` word follows the single `End` and the
parse succeeds). -/
theorem claim_C3 (strings : List Nat) (tf v lc bc : Nat) :
    (∀ st : LoopSt, st.names = [] →
        loopStep tf v lc bc st .endNode = .err .tooManyEnds)
      ∧ (∀ (st : LoopSt) (name : NameRef) (names2 : List NameRef)
          (c : List (NameRef × RawNode)) (p : PropMap) (props2 : List PropMap),
          st.names = name :: names2 → st.children = [c] →
          st.properties = p :: props2 →
          loopStep tf v lc bc st .endNode = .err .tooManyEnds)
      ∧ (∀ (st : LoopSt) (t : DevTree), st.result = some t →
          loopStep tf v lc bc st .tokEnd = .err .tooManyEnds)
      ∧ (∀ st : LoopSt, st.result = none → (∀ c, st.children ≠ [c]) →
          loopStep tf v lc bc st .tokEnd = .err (.badDepth st.children.length))
      ∧ (∀ (st : LoopSt) (c : List (NameRef × RawNode)), st.result = none →
          st.children = [c] → (∀ x, c ≠ [x]) →
          loopStep tf v lc bc st .tokEnd = .err (.badRoots (c.map Prod.fst)))
      ∧ (∀ (st : LoopSt) (name : NameRef) (root : RawNode), st.result = none →
          st.children = [[(name, root)]] →
          ¬(name.nodeName = [] ∧ name.unitAddress = none) →
          loopStep tf v lc bc st .tokEnd = .err (.badRootName name))
      ∧ (∀ (fuel : Nat) (bytes : U32BS) (st : LoopSt) (t : DevTree),
          fromBytesLoop strings tf v lc bc fuel bytes st = .ok t →
          st.result = none → structHasEnd strings fuel bytes = true) := by
  refine ⟨?_, ?_, ?_, ?_, ?_, ?_, loop_hasEnd strings tf v lc bc⟩
  · intro st h
    simp [loopStep, h]
  · intro st name names2 c p props2 h1 h2 h3
    simp [loopStep, h1, h2, h3]
  · intro st t h
    simp [loopStep, h]
  · intro st hres hne
    rcases hch : st.children with _ | ⟨c, rest⟩
    · simp [loopStep, hres, hch]
    · rcases rest with _ | ⟨c2, rest2⟩
      · exact absurd hch (hne c)
      · simp [loopStep, hres, hch]
  · intro st c hres hch hnx
    rcases hc : c with _ | ⟨x, rest⟩
    · simp [loopStep, hres, hch, hc]
    · rcases rest with _ | ⟨y, rest2⟩
      · exact absurd hc (hnx x)
      · simp [loopStep, hres, hch, hc]
  · intro st name root hres hch hbad
    simp only [loopStep, hres, hch, Option.isSome_none, Bool.false_eq_true, if_false]
    rw [if_neg hbad]

theorem claim_C3_witness :
    loopStep 1 0 0 0 ⟨[], [[]], [], none⟩ .endNode = .err .tooManyEnds
      ∧ loopStep 1 0 0 0 ⟨[], [], [], none⟩ .tokEnd = .err (.badDepth 0) :=
  ⟨(claim_C3 [] 1 0 0 0).1 ⟨[], [[]], [], none⟩ rfl,
   (claim_C3 [] 1 0 0 0).2.2.2.1 ⟨[], [], [], none⟩ rfl
     (fun c hc => List.noConfusion hc)⟩

/-! ## Claim C4 -/

theorem remaining_le_len (s : U32BS) : s.remainingU32s ≤ s.lenU32s :=
  Nat.sub_le _ _

theorem consumeU32_spec (s : U32BS) (h : 1 ≤ s.remainingU32s) :
    s.consumeU32 = (some (s.words.getD 0 0), ⟨s.words.drop 1, s.padding⟩) := by
  have hlen : 1 ≤ s.lenU32s := le_trans h (remaining_le_len s)
  unfold U32BS.consumeU32
  rw [if_pos h]
  match s, hlen with
  | ⟨w :: rest, p⟩, _ => rfl

theorem consumeU64_spec (s : U32BS) (h : 2 ≤ s.remainingU32s) :
    s.consumeU64
      = (some (s.words.getD 0 0 * 2 ^ 32 + s.words.getD 1 0),
         ⟨s.words.drop 2, s.padding⟩) := by
  have hlen : 2 ≤ s.lenU32s := le_trans h (remaining_le_len s)
  unfold U32BS.consumeU64
  rw [if_pos h]
  match s, hlen with
  | ⟨a :: b :: rest, p⟩, _ => rfl

theorem remaining_drop (w : List Nat) (p k : Nat) :
    U32BS.remainingU32s ⟨w.drop k, p⟩ = U32BS.remainingU32s ⟨w, p⟩ - k := by
  simp only [U32BS.remainingU32s, U32BS.lenU32s, List.length_drop]
  split <;> omega

theorem discardCells_spec (n : Nat) :
    ∀ (s : U32BS), n ≤ s.remainingU32s →
      U32BS.discardCells n s
        = (⟨s.words.drop n, s.padding⟩, (s.words.take n).any (fun w => w != 0)) := by
  induction n with
  | zero =>
    intro s _
    simp [U32BS.discardCells]
  | succ n ih =>
    intro s h
    have h1 : 1 ≤ s.remainingU32s := le_trans (Nat.le_add_left 1 n) h
    have hlen : 1 ≤ s.lenU32s := le_trans h1 (remaining_le_len s)
    obtain ⟨w, rest, hw⟩ : ∃ w rest, s.words = w :: rest := by
      match s, hlen with
      | ⟨w :: rest, p⟩, _ => exact ⟨w, rest, rfl⟩
    have hrem : n ≤ U32BS.remainingU32s ⟨rest, s.padding⟩ := by
      have e := remaining_drop s.words s.padding 1
      rw [hw] at e
      simp only [List.drop_succ_cons, List.drop_zero] at e
      have hs : U32BS.remainingU32s ⟨w :: rest, s.padding⟩ = s.remainingU32s := by
        rw [← hw]
      omega
    have hcons := consumeU32_spec s h1
    rw [hw] at hcons
    have hproj : U32BS.discardCells n ⟨rest, s.padding⟩
        = (⟨List.drop n rest, s.padding⟩, (List.take n rest).any fun x => x != 0) := by
      simpa using ih ⟨rest, s.padding⟩ hrem
    rw [hw]
    simp only [U32BS.discardCells, hcons, hproj, List.getD_cons_zero,
      List.drop_succ_cons, List.drop_zero, List.take_succ_cons, List.any_cons]
    rcases Nat.eq_zero_or_pos w with hw0 | hw0
    · subst hw0; simp
    · have hw1 : (some w != some 0) = true := by simp; omega
      have hw2 : (w != 0) = true := by simp; omega
      rw [hw1, hw2]

theorem claim_C4_cells3 (n : Nat) (s : U32BS) (h : n + 3 ≤ s.remainingU32s) :
    U32BS.consumeCells (n + 3) s
      = (some (s.words.getD 0 0 * 2 ^ 32 + s.words.getD 1 0),
         ⟨s.words.drop (n + 3), s.padding⟩,
         ((s.words.drop 2).take (n + 1)).any (fun w => w != 0)) := by
  have h2 : 2 ≤ s.remainingU32s := by omega
  have hcons := consumeU64_spec s h2
  have hrem2 : n + 1 ≤ U32BS.remainingU32s ⟨s.words.drop 2, s.padding⟩ := by
    have e := remaining_drop s.words s.padding 2
    have hs : U32BS.remainingU32s ⟨s.words, s.padding⟩ = s.remainingU32s := rfl
    omega
  have hd := discardCells_spec (n + 1) ⟨s.words.drop 2, s.padding⟩ hrem2
  simp only [U32BS.consumeCells, hcons, hd, List.drop_drop]
  norm_num
  congr 1
  omega

theorem consumeCells_consume (c : Nat) (s : U32BS) (h : c ≤ s.remainingU32s) :
    ∃ v b, U32BS.consumeCells c s = (some v, ⟨s.words.drop c, s.padding⟩, b) :=
  match c, h with
  | 0, _ => ⟨0, false, rfl⟩
  | 1, h => ⟨s.words.getD 0 0, false, by
      simp only [U32BS.consumeCells, consumeU32_spec s h]⟩
  | 2, h => ⟨s.words.getD 0 0 * 2 ^ 32 + s.words.getD 1 0, false, by
      simp only [U32BS.consumeCells, consumeU64_spec s h]⟩
  | n + 3, h => ⟨s.words.getD 0 0 * 2 ^ 32 + s.words.getD 1 0,
      ((s.words.drop 2).take (n + 1)).any (fun w => w != 0), claim_C4_cells3 n s h⟩

theorem consumeGroup_spec :
    ∀ (counts : List Nat) (s : U32BS), counts.sum ≤ s.remainingU32s →
      ∃ vs, U32BS.consumeGroup counts s
        = some (vs, ⟨s.words.drop counts.sum, s.padding⟩) := by
  intro counts
  induction counts with
  | nil => intro s _; exact ⟨[], rfl⟩
  | cons c cs ih =>
    intro s h
    rw [List.sum_cons] at h
    have hc : c ≤ s.remainingU32s := by omega
    obtain ⟨v, b, hv⟩ := consumeCells_consume c s hc
    have hrest : cs.sum ≤ U32BS.remainingU32s ⟨s.words.drop c, s.padding⟩ := by
      rw [remaining_drop]
      have hs : U32BS.remainingU32s ⟨s.words, s.padding⟩ = s.remainingU32s := rfl
      omega
    obtain ⟨vs, hvs⟩ := ih _ hrest
    refine ⟨v :: vs, ?_⟩
    simp only [U32BS.consumeGroup, hv, hvs, List.drop_drop]
    rw [List.sum_cons]

theorem groupLoop_ok (counts : List Nat) (htot : 0 < counts.sum) :
    ∀ (len : Nat) (s : U32BS) (fuel : Nat), s.padding = 0 → s.lenU32s = len →
      len % counts.sum = 0 → len < fuel →
      ∃ gs, U32BS.groupLoop counts fuel s = .ok gs := by
  intro len
  induction len using Nat.strong_induction_on with
  | _ len ih =>
    intro s fuel hp hlen hmod hfuel
    rcases fuel with _ | f
    · omega
    rcases Nat.eq_zero_or_pos len with h0 | h0
    · have hw : s.words = [] := by
        have : s.words.length = 0 := by
          have : s.lenU32s = 0 := by omega
          exact this
        exact List.length_eq_zero.1 this
      refine ⟨[], ?_⟩
      simp [U32BS.groupLoop, U32BS.isEmpty, hw]
    · have hdvd : counts.sum ∣ len := Nat.dvd_of_mod_eq_zero hmod
      have hle : counts.sum ≤ len := Nat.le_of_dvd h0 hdvd
      have hrem : counts.sum ≤ s.remainingU32s := by
        have hrw : s.remainingU32s = s.lenU32s := by
          simp [U32BS.remainingU32s, hp]
        omega
      obtain ⟨vs, hg⟩ := consumeGroup_spec counts s hrem
      have hlen2 : U32BS.lenU32s ⟨s.words.drop counts.sum, s.padding⟩ = len - counts.sum := by
        simp only [U32BS.lenU32s, List.length_drop]
        simp only [U32BS.lenU32s] at hlen
        omega
      have hmod2 : (len - counts.sum) % counts.sum = 0 := by
        obtain ⟨q, hq⟩ := Nat.dvd_sub' hdvd dvd_rfl
        rw [hq, Nat.mul_mod_right]
      obtain ⟨gs, hrec⟩ := ih (len - counts.sum) (by omega)
        ⟨s.words.drop counts.sum, s.padding⟩ f hp hlen2 hmod2 (by omega)
      refine ⟨vs :: gs, ?_⟩
      have hwne : s.words ≠ [] := by
        intro hcontra
        have hl0 : s.lenU32s = 0 := by
          simp [U32BS.lenU32s, hcontra]
        omega
      have hne : s.isEmpty = false := by
        cases hww : s.words with
        | nil => exact absurd hww hwne
        | cons x xs => simp [U32BS.isEmpty, hww]
      simp [U32BS.groupLoop, hne, hg, hrec]

theorem claim_C4_slice :
    ∀ (counts : List Nat) (s : U32BS), counts ≠ [] → s.padding = 0 →
      ((U32BS.intoCellsSlice counts s).isOk = true ↔ s.lenU32s % counts.sum = 0) := by
  intro counts s hc hp
  have hcb : counts.isEmpty = false := by
    cases counts with
    | nil => exact absurd rfl hc
    | cons a l => rfl
  simp only [U32BS.intoCellsSlice, hp, hcb, ne_eq, not_true_eq_false, if_false,
    Bool.false_eq_true]
  by_cases h0 : counts.sum = 0
  · rw [if_pos h0, h0, Nat.mod_zero]
    by_cases he : s.words = []
    · have hse : s.isEmpty = true := by simp [U32BS.isEmpty, he]
      rw [if_pos hse]
      have hl0 : s.lenU32s = 0 := by simp [U32BS.lenU32s, he]
      simp [POut.isOk, hl0]
    · have hse : ¬(s.isEmpty = true) := by simp [U32BS.isEmpty, he]
      rw [if_neg hse]
      constructor
      · intro hcontra
        exact absurd hcontra (by simp [POut.isOk])
      · intro hlen0
        have hwl : s.words.length = 0 := hlen0
        exact absurd (List.length_eq_zero.1 hwl) he
  · rw [if_neg h0]
    by_cases hm : s.lenU32s % counts.sum = 0
    · rw [if_neg (by simp [hm])]
      obtain ⟨gs, hgs⟩ := groupLoop_ok counts (Nat.pos_of_ne_zero h0) s.lenU32s s
        (s.lenU32s + 1) hp rfl hm (Nat.lt_succ_self _)
      rw [hgs]
      simp [POut.isOk, hm]
    · rw [if_pos hm]
      simp [POut.isOk, hm]

/-- Claim C4 (confirmed): consuming `n` cells yields `0` for `n = 0`, the
single leading word for `n = 1`, the big-endian combination of the two
leading words for `n = 2`, and for `n > 2` the first two words while the
remaining `n - 2` cells are consumed and discarded, with a warning flag —
never an error — exactly when a discarded cell is non-zero; and decoding a
cells slice into fixed-width tuples succeeds precisely when the word count
is an exact multiple of the tuple's total cell width. -/
theorem claim_C4 :
    (∀ s : U32BS, U32BS.consumeCells 0 s = (some 0, s, false))
      ∧ (∀ s : U32BS, 1 ≤ s.remainingU32s →
          U32BS.consumeCells 1 s
            = (some (s.words.getD 0 0), ⟨s.words.drop 1, s.padding⟩, false))
      ∧ (∀ s : U32BS, 2 ≤ s.remainingU32s →
          U32BS.consumeCells 2 s
            = (some (s.words.getD 0 0 * 2 ^ 32 + s.words.getD 1 0),
               ⟨s.words.drop 2, s.padding⟩, false))
      ∧ (∀ (n : Nat) (s : U32BS), n + 3 ≤ s.remainingU32s →
          U32BS.consumeCells (n + 3) s
            = (some (s.words.getD 0 0 * 2 ^ 32 + s.words.getD 1 0),
               ⟨s.words.drop (n + 3), s.padding⟩,
               ((s.words.drop 2).take (n + 1)).any (fun w => w != 0)))
      ∧ (∀ (counts : List Nat) (s : U32BS), counts ≠ [] → s.padding = 0 →
          ((U32BS.intoCellsSlice counts s).isOk = true ↔ s.lenU32s % counts.sum = 0)) := by
  refine ⟨?_, ?_, ?_, ?_, ?_⟩
  · intro s; rfl
  · intro s h
    simp only [U32BS.consumeCells, consumeU32_spec s h]
  · intro s h
    simp only [U32BS.consumeCells, consumeU64_spec s h]
  · exact claim_C4_cells3
  · exact claim_C4_slice

/-! ## Claim C8 -/

theorem lexCompare_eq_iff : ∀ a b : List Nat, lexCompare a b = .eq ↔ a = b := by
  intro a
  induction a with
  | nil =>
    intro b
    cases b with
    | nil => simp [lexCompare]
    | cons y bs => simp [lexCompare]
  | cons x as ih =>
    intro b
    cases b with
    | nil => simp [lexCompare]
    | cons y bs =>
      simp only [lexCompare]
      cases hxy : compare x y with
      | lt =>
        have : x ≠ y := by
          rw [Nat.compare_eq_lt] at hxy
          omega
        simp [this]
      | eq =>
        have hxyeq : x = y := Nat.compare_eq_eq.1 hxy
        subst hxyeq
        simp [ih bs]
      | gt =>
        have : x ≠ y := by
          rw [Nat.compare_eq_gt] at hxy
          omega
        simp [this]

theorem lexCompare_swap : ∀ a b : List Nat, lexCompare b a = (lexCompare a b).swap := by
  intro a
  induction a with
  | nil =>
    intro b
    cases b with
    | nil => rfl
    | cons y bs => rfl
  | cons x as ih =>
    intro b
    cases b with
    | nil => rfl
    | cons y bs =>
      simp only [lexCompare]
      cases hxy : compare x y with
      | lt =>
        have : compare y x = .gt := by
          rw [Nat.compare_eq_gt]
          exact Nat.compare_eq_lt.1 hxy
        rw [this]
        rfl
      | eq =>
        have hxyeq : x = y := Nat.compare_eq_eq.1 hxy
        subst hxyeq
        rw [show compare x x = Ordering.eq from Nat.compare_eq_eq.2 rfl]
        exact ih bs
      | gt =>
        have : compare y x = .lt := by
          rw [Nat.compare_eq_lt]
          exact Nat.compare_eq_gt.1 hxy
        rw [this]
        rfl

theorem lexCompare_trans :
    ∀ a b c : List Nat, lexCompare a b = .lt → lexCompare b c = .lt →
      lexCompare a c = .lt := by
  intro a
  induction a with
  | nil =>
    intro b c hab hbc
    cases b with
    | nil => simp [lexCompare] at hab
    | cons y bs =>
      cases c with
      | nil => simp [lexCompare] at hbc
      | cons z cs => rfl
  | cons x as ih =>
    intro b c hab hbc
    cases b with
    | nil => simp [lexCompare] at hab
    | cons y bs =>
      cases c with
      | nil => simp [lexCompare] at hbc
      | cons z cs =>
        simp only [lexCompare] at hab hbc ⊢
        cases hxy : compare x y with
        | lt =>
          cases hyz : compare y z with
          | lt =>
            have : compare x z = .lt := by
              rw [Nat.compare_eq_lt] at hxy hyz ⊢
              omega
            rw [this]
          | eq =>
            have hyzeq : y = z := Nat.compare_eq_eq.1 hyz
            subst hyzeq
            rw [hxy]
          | gt =>
            rw [hyz] at hbc
            exact absurd hbc (by simp)
        | eq =>
          have hxyeq : x = y := Nat.compare_eq_eq.1 hxy
          subst hxyeq
          rw [hxy] at hab
          cases hyz : compare x z with
          | lt => rfl
          | eq =>
            rw [hyz] at hbc
            exact ih bs cs hab hbc
          | gt =>
            rw [hyz] at hbc
            exact absurd hbc (by simp)
        | gt =>
          rw [hxy] at hab
          exact absurd hab (by simp)

theorem keyLt_asymm {V : Type} (a b : List Nat × V) (h1 : keyLt a b)
    (h2 : keyLt b a) : False := by
  rw [keyLt, lexCompare_swap, h1] at h2
  exact absurd h2 (by simp [Ordering.swap])

theorem mem_insert {V : Type} (k : List Nat) (v : V) :
    ∀ (m : Map (List Nat) V) (x : List Nat × V),
      x ∈ (Map.insert k v m).1 → x = (k, v) ∨ x ∈ m := by
  intro m
  induction m with
  | nil =>
    intro x hx
    simp only [Map.insert, List.mem_singleton] at hx
    exact Or.inl hx
  | cons e rest ih =>
    obtain ⟨k1, v1⟩ := e
    intro x hx
    simp only [Map.insert] at hx
    cases hcmp : KeyCmp.cmp k k1 with
    | lt =>
      simp only [hcmp, List.mem_cons] at hx
      rcases hx with h | h | h
      · exact Or.inl h
      · exact Or.inr (by simp [h])
      · exact Or.inr (by simp [h])
    | eq =>
      simp only [hcmp, List.mem_cons] at hx
      rcases hx with h | h
      · have hk : k = k1 := (lexCompare_eq_iff k k1).1 hcmp
        exact Or.inl (by rw [h, hk])
      · exact Or.inr (by simp [h])
    | gt =>
      simp only [hcmp, List.mem_cons] at hx
      rcases hx with h | h
      · exact Or.inr (by simp [h])
      · rcases ih x h with h2 | h2
        · exact Or.inl h2
        · exact Or.inr (by simp [h2])

theorem get_eq_none_of_not_mem {V : Type} (k : List Nat) :
    ∀ (m : Map (List Nat) V), (∀ e ∈ m, e.1 ≠ k) → Map.get k m = none := by
  intro m
  induction m with
  | nil => intro _; rfl
  | cons e rest ih =>
    obtain ⟨k1, v1⟩ := e
    intro h
    simp only [Map.get]
    cases hcmp : KeyCmp.cmp k k1 with
    | lt =>
      simp only [hcmp]
      exact ih (fun x hx => h x (by simp [hx]))
    | eq =>
      have hk : k = k1 := (lexCompare_eq_iff k k1).1 hcmp
      exact absurd hk.symm (h (k1, v1) (by simp))
    | gt =>
      simp only [hcmp]
      exact ih (fun x hx => h x (by simp [hx]))

theorem insert_perm {V : Type} (k : List Nat) (v : V) :
    ∀ (m : Map (List Nat) V), Map.get k m = none →
      (Map.insert k v m).1.Perm ((k, v) :: m) := by
  intro m
  induction m with
  | nil => intro _; exact List.Perm.refl _
  | cons e rest ih =>
    obtain ⟨k1, v1⟩ := e
    intro hget
    simp only [Map.get] at hget
    simp only [Map.insert]
    cases hcmp : KeyCmp.cmp k k1 with
    | lt =>
      simp only [hcmp]
      exact List.Perm.refl _
    | eq =>
      simp only [hcmp] at hget
      exact Option.noConfusion hget
    | gt =>
      simp only [hcmp] at hget ⊢
      exact ((ih hget).cons (k1, v1)).trans (List.Perm.swap (k, v) (k1, v1) rest)

theorem insert_pairwise {V : Type} (k : List Nat) (v : V) :
    ∀ (m : Map (List Nat) V), m.Pairwise keyLt → Map.get k m = none →
      (Map.insert k v m).1.Pairwise keyLt := by
  intro m
  induction m with
  | nil =>
    intro _ _
    simp [Map.insert]
  | cons e rest ih =>
    obtain ⟨k1, v1⟩ := e
    intro hs hget
    simp only [Map.get] at hget
    simp only [Map.insert]
    rw [List.pairwise_cons] at hs
    cases hcmp : KeyCmp.cmp k k1 with
    | lt =>
      simp only [hcmp]
      rw [List.pairwise_cons]
      refine ⟨?_, List.pairwise_cons.2 hs⟩
      intro x hx
      rcases List.mem_cons.1 hx with h | h
      · rw [h]
        exact hcmp
      · exact lexCompare_trans k k1 x.1 hcmp (hs.1 x h)
    | eq =>
      simp only [hcmp] at hget
      exact Option.noConfusion hget
    | gt =>
      simp only [hcmp] at hget ⊢
      rw [List.pairwise_cons]
      refine ⟨?_, ih hs.2 hget⟩
      intro x hx
      rcases mem_insert k v rest x hx with h | h
      · rw [h]
        show lexCompare k1 k = Ordering.lt
        have hcmp2 : lexCompare k k1 = Ordering.gt := hcmp
        rw [lexCompare_swap, hcmp2]
        rfl
      · exact hs.1 x h

theorem buildMap_from {V : Type} :
    ∀ (l : List (List Nat × V)) (m : Map (List Nat) V),
      m.Pairwise keyLt →
      (∀ e1 ∈ m, ∀ e2 ∈ l, e1.1 ≠ e2.1) →
      l.Pairwise (fun a b => a.1 ≠ b.1) →
      (l.foldl (fun acc e => (Map.insert e.1 e.2 acc).1) m).Perm (m ++ l)
        ∧ (l.foldl (fun acc e => (Map.insert e.1 e.2 acc).1) m).Pairwise keyLt := by
  intro l
  induction l with
  | nil =>
    intro m hs _ _
    constructor
    · simp
    · exact hs
  | cons e rest ih =>
    intro m hs hcross hdist
    rw [List.pairwise_cons] at hdist
    have hget : Map.get e.1 m = none :=
      get_eq_none_of_not_mem e.1 m (fun x hx => hcross x hx e (by simp))
    have hperm1 := insert_perm e.1 e.2 m hget
    have hsorted1 := insert_pairwise e.1 e.2 m hs hget
    have hcross2 : ∀ e1 ∈ (Map.insert e.1 e.2 m).1, ∀ e2 ∈ rest, e1.1 ≠ e2.1 := by
      intro e1 h1 e2 h2
      rcases mem_insert e.1 e.2 m e1 h1 with h | h
      · rw [h]
        exact hdist.1 e2 h2
      · exact hcross e1 h e2 (by simp [h2])
    obtain ⟨hp, hsrt⟩ := ih (Map.insert e.1 e.2 m).1 hsorted1 hcross2 hdist.2
    refine ⟨?_, hsrt⟩
    simp only [List.foldl_cons]
    have step1 : ((Map.insert e.1 e.2 m).1 ++ rest).Perm ((e :: m) ++ rest) := by
      have he2 : (e.1, e.2) = e := rfl
      exact List.Perm.append_right rest (he2 ▸ hperm1)
    have step2 : ((e :: m) ++ rest).Perm (m ++ e :: rest) := by
      rw [List.cons_append]
      exact List.perm_middle.symm
    exact (hp.trans step1).trans step2

theorem sortedCons_perm {K V : Type} [KeyCmp K] (x : K × V) :
    ∀ (m : Map K V), (Map.sortedCons x m).Perm (x :: m) := by
  intro m
  induction m with
  | nil => exact List.Perm.refl _
  | cons y rest ih =>
    simp only [Map.sortedCons]
    cases hcmp : KeyCmp.cmp x.1 y.1 with
    | lt =>
      simp only [hcmp]
      exact List.Perm.refl _
    | eq =>
      simp only [hcmp]
      exact (ih.cons y).trans (List.Perm.swap x y rest)
    | gt =>
      simp only [hcmp]
      exact (ih.cons y).trans (List.Perm.swap x y rest)

theorem fromList_perm {K V : Type} [KeyCmp K] :
    ∀ (l : List (K × V)), (Map.fromList l).Perm l := by
  intro l
  induction l with
  | nil => exact List.Perm.refl _
  | cons e rest ih =>
    exact (sortedCons_perm e (Map.fromList rest)).trans (ih.cons e)

theorem sortedCons_pairwise {V : Type} (x : List Nat × V) :
    ∀ (m : Map (List Nat) V), m.Pairwise keyLt →
      (∀ e ∈ m, x.1 ≠ e.1) → (Map.sortedCons x m).Pairwise keyLt := by
  intro m
  induction m with
  | nil =>
    intro _ _
    simp [Map.sortedCons]
  | cons y rest ih =>
    intro hs hne
    rw [List.pairwise_cons] at hs
    simp only [Map.sortedCons]
    cases hcmp : KeyCmp.cmp x.1 y.1 with
    | lt =>
      simp only [hcmp]
      rw [List.pairwise_cons]
      refine ⟨?_, List.pairwise_cons.2 hs⟩
      intro z hz
      rcases List.mem_cons.1 hz with h | h
      · rw [h]
        exact hcmp
      · exact lexCompare_trans x.1 y.1 z.1 hcmp (hs.1 z h)
    | eq =>
      have hk : x.1 = y.1 := (lexCompare_eq_iff x.1 y.1).1 hcmp
      exact absurd hk (hne y (by simp))
    | gt =>
      simp only [hcmp]
      rw [List.pairwise_cons]
      refine ⟨?_, ih hs.2 (fun e he => hne e (by simp [he]))⟩
      intro z hz
      rcases List.mem_cons.1 ((sortedCons_perm x rest).mem_iff.1 hz) with h | h
      · rw [h]
        show lexCompare y.1 x.1 = Ordering.lt
        have hcmp2 : lexCompare x.1 y.1 = Ordering.gt := hcmp
        rw [lexCompare_swap, hcmp2]
        rfl
      · exact hs.1 z h

theorem fromList_spec {V : Type} :
    ∀ (l : List (List Nat × V)), l.Pairwise (fun a b => a.1 ≠ b.1) →
      (Map.fromList l).Perm l ∧ (Map.fromList l).Pairwise keyLt := by
  intro l
  induction l with
  | nil => exact fun _ => ⟨List.Perm.refl _, List.Pairwise.nil⟩
  | cons e rest ih =>
    intro hdist
    rw [List.pairwise_cons] at hdist
    obtain ⟨hp, hsrt⟩ := ih hdist.2
    have hne : ∀ z ∈ Map.fromList rest, e.1 ≠ z.1 := by
      intro z hz
      exact hdist.1 z (hp.mem_iff.1 hz)
    constructor
    · exact (sortedCons_perm e (Map.fromList rest)).trans (hp.cons e)
    · exact sortedCons_pairwise e (Map.fromList rest) hsrt hne

/-- Claim C8 counterexample: two insertion sequences holding the same
key-value pairs (as a multiset) in different orders, with a repeated key,
yield different maps with different lookup results — `insert` is
last-writer-wins, so order independence fails when a key occurs twice. -/
theorem claim_C8_counterexample :
    ([([107], 1), ([107], 2)] : List (List Nat × Nat)).Perm
        [([107], 2), ([107], 1)]
      ∧ buildMap [([107], 1), ([107], 2)] ≠ buildMap [([107], 2), ([107], 1)]
      ∧ Map.get [107] (buildMap [([107], 1), ([107], 2)])
          ≠ Map.get [107] (buildMap [([107], 2), ([107], 1)]) := by
  decide

set_option maxHeartbeats 800000 in
/-- Claim C8 (corrected): when the inserted key-value pairs carry pairwise
distinct keys, any two insertion orders of the same pairs produce literally
identical maps, whose entry list is strictly sorted by key (so iteration is
in sorted key order) and whose lookups agree at every key; the same sorted
map is also what `FromIterator` builds from the same pairs.  Without the
distinct-key hypothesis the property fails (`insert` replaces, so the last
value for a repeated key wins — see the counterexample). -/
theorem claim_C8 {V : Type} (l1 l2 : List (List Nat × V))
    (hperm : l1.Perm l2) (hdist : l1.Pairwise (fun a b => a.1 ≠ b.1)) :
    buildMap l1 = buildMap l2
      ∧ buildMap l1 = Map.fromList l1
      ∧ (buildMap l1).Pairwise keyLt
      ∧ ∀ k, Map.get k (buildMap l1) = Map.get k (buildMap l2) := by
  have hdist2 : l2.Pairwise (fun a b => a.1 ≠ b.1) :=
    (hperm.pairwise_iff (fun h => Ne.symm h)).1 hdist
  obtain ⟨p1, s1⟩ := buildMap_from l1 Map.empty List.Pairwise.nil
    (fun e1 h1 => absurd h1 (List.not_mem_nil e1)) hdist
  obtain ⟨p2, s2⟩ := buildMap_from l2 Map.empty List.Pairwise.nil
    (fun e1 h1 => absurd h1 (List.not_mem_nil e1)) hdist2
  obtain ⟨pf, sf⟩ := fromList_spec l1 hdist
  have p1' : (buildMap l1).Perm l1 := p1
  have p2' : (buildMap l2).Perm l2 := p2
  haveI : IsAntisymm (List Nat × V) keyLt :=
    ⟨fun a b h1 h2 => (keyLt_asymm a b h1 h2).elim⟩
  have h12 : buildMap l1 = buildMap l2 :=
    List.eq_of_perm_of_sorted (p1'.trans (hperm.trans p2'.symm)) s1 s2
  have h1f : buildMap l1 = Map.fromList l1 :=
    List.eq_of_perm_of_sorted (p1'.trans pf.symm) s1 sf
  exact ⟨h12, h1f, s1, fun k => by rw [h12]⟩

theorem claim_C8_witness :
    (([([98], 0), ([97], 1)] : List (List Nat × Nat)).Perm
        [([97], 1), ([98], 0)]
      ∧ ([([98], 0), ([97], 1)] : List (List Nat × Nat)).Pairwise
          (fun a b => a.1 ≠ b.1))
      ∧ buildMap [([98], 0), ([97], 1)] = buildMap [([97], 1), ([98], 0)] := by
  refine ⟨⟨by decide, by decide⟩, ?_⟩
  exact (claim_C8 [([98], 0), ([97], 1)] [([97], 1), ([98], 0)]
    (by decide) (by decide)).1

/-! ## Claim C5 -/

theorem isOk_exists {ε α : Type} (p : POut ε α) (h : p.isOk = true) :
    ∃ a, p = .ok a := by
  cases p with
  | ok a => exact ⟨a, rfl⟩
  | err e => exact Bool.noConfusion h
  | crash => exact Bool.noConfusion h
  | nofuel => exact Bool.noConfusion h

theorem natMap_get_mem {V : Type} (k : Nat) :
    ∀ (m : Map Nat V) (v : V), Map.get k m = some v → (k, v) ∈ m := by
  intro m
  induction m with
  | nil =>
    intro v h
    exact Option.noConfusion h
  | cons e rest ih =>
    obtain ⟨k1, v1⟩ := e
    intro v h
    simp only [Map.get] at h
    cases hc : KeyCmp.cmp k k1 with
    | eq =>
      simp only [hc, Option.some.injEq] at h
      have hk : k = k1 := Nat.compare_eq_eq.1 hc
      subst hk
      subst h
      exact List.mem_cons_self _ _
    | lt =>
      simp only [hc] at h
      exact List.mem_cons_of_mem _ (ih v h)
    | gt =>
      simp only [hc] at h
      exact List.mem_cons_of_mem _ (ih v h)

theorem cpusFold_keys (base : PropMap) (caches : Map Nat HigherLevel) (ac : Nat) :
    ∀ (l : List (NameRef × RawNode)) (pairs : List (Nat × CpuNode)),
      cpusFold base caches ac l = .ok pairs → ∀ e ∈ pairs, e.1 = e.2.reg := by
  intro l
  induction l with
  | nil =>
    intro pairs h e he
    simp only [cpusFold, POut.ok.injEq] at h
    subst h
    exact absurd he (List.not_mem_nil e)
  | cons p rest ih =>
    obtain ⟨name, raw⟩ := p
    intro pairs h e he
    simp only [cpusFold] at h
    split at h
    · exact POut.noConfusion h
    · exact POut.noConfusion h
    · exact POut.noConfusion h
    · split at h
      · exact POut.noConfusion h
      · rcases hl2 : cpusFold base caches ac rest with l2 | e2 | _ | _
        · simp only [hl2, POut.ok.injEq] at h
          subst h
          rcases List.mem_cons.1 he with hh | hh
          · rw [hh]
          · exact ih l2 hl2 e hh
        · simp [hl2] at h
        · simp [hl2] at h
        · simp [hl2] at h

theorem rootRest_cpus (fuel : Nat) (children : List (NameRef × RawNode))
    (pre : RootPrelude) (r : RootNode) (h : rootRest fuel children pre = .ok r) :
    ∀ k bc, Map.get k r.cpus = some bc → bc.reg = k := by
  simp only [rootRest] at h
  split at h
  · exact POut.noConfusion h
  split at h
  · exact POut.noConfusion h
  split at h
  · exact POut.noConfusion h
  · exact POut.noConfusion h
  · exact POut.noConfusion h
  split at h
  · exact POut.noConfusion h
  · exact POut.noConfusion h
  · exact POut.noConfusion h
  rename_i cpuPairs hcf
  split at h
  · exact POut.noConfusion h
  split at h
  · exact POut.noConfusion h
  split at h
  · exact POut.noConfusion h
  · exact POut.noConfusion h
  · exact POut.noConfusion h
  split at h
  · exact POut.noConfusion h
  · exact POut.noConfusion h
  · exact POut.noConfusion h
  split at h
  · exact POut.noConfusion h
  split at h
  · exact POut.noConfusion h
  · exact POut.noConfusion h
  · exact POut.noConfusion h
  · exact POut.noConfusion h
  simp only [POut.ok.injEq] at h
  subst h
  intro k bc hg
  have hg2 : Map.get k (Map.fromList cpuPairs) = some bc := hg
  have hmem : (k, bc) ∈ Map.fromList cpuPairs := natMap_get_mem k _ bc hg2
  have hmem2 : (k, bc) ∈ cpuPairs := (fromList_perm cpuPairs).mem_iff.1 hmem
  exact (cpusFold_keys _ _ _ _ _ hcf (k, bc) hmem2).symm

theorem rootTryFrom_cpus (fuel : Nat) (value : RawNode) (r : RootNode)
    (h : rootTryFrom fuel value = .ok r) :
    ∀ k bc, Map.get k r.cpus = some bc → bc.reg = k := by
  simp only [rootTryFrom] at h
  split at h
  · exact POut.noConfusion h
  · exact POut.noConfusion h
  · exact POut.noConfusion h
  · exact rootRest_cpus _ _ _ _ h

theorem loopStep_result (tf v lc bcid : Nat) (st : LoopSt) (tok : Token)
    (st2 : LoopSt) (h : loopStep tf v lc bcid st tok = .ok st2) :
    st2.result = st.result
      ∨ ∃ r bc, st2.result = some ⟨r, v, lc, bc⟩
          ∧ Map.get bcid r.cpus = some bc
          ∧ ∃ f2 root2, rootTryFrom f2 root2 = .ok r := by
  cases tok with
  | beginNode name =>
    exact Or.inl (loopStep_keep tf v lc bcid st _ st2
      (fun hc => Token.noConfusion hc) h)
  | endNode =>
    exact Or.inl (loopStep_keep tf v lc bcid st _ st2
      (fun hc => Token.noConfusion hc) h)
  | prop name value =>
    exact Or.inl (loopStep_keep tf v lc bcid st _ st2
      (fun hc => Token.noConfusion hc) h)
  | nop =>
    exact Or.inl (loopStep_keep tf v lc bcid st _ st2
      (fun hc => Token.noConfusion hc) h)
  | tokEnd =>
    simp only [loopStep] at h
    split at h
    · exact POut.noConfusion h
    · split at h
      · split at h
        · rename_i name root hc1
          split at h
          · split at h
            · exact POut.noConfusion h
            · exact POut.noConfusion h
            · exact POut.noConfusion h
            · rename_i r hrt
              split at h
              · exact POut.noConfusion h
              · rename_i bc hget
                simp only [POut.ok.injEq] at h
                exact Or.inr ⟨r, bc, by rw [← h], hget, tf, root, hrt⟩
          · exact POut.noConfusion h
        · exact POut.noConfusion h
      · exact POut.noConfusion h

theorem loop_boot (strings : List Nat) (tf v lc bcid : Nat) :
    ∀ (fuel : Nat) (bytes : U32BS) (st : LoopSt) (t : DevTree),
      fromBytesLoop strings tf v lc bcid fuel bytes st = .ok t →
      (∀ t0, st.result = some t0 →
        Map.get bcid t0.root.cpus = some t0.bootCpu
          ∧ ∃ f2 root2, rootTryFrom f2 root2 = .ok t0.root) →
      Map.get bcid t.root.cpus = some t.bootCpu
        ∧ ∃ f2 root2, rootTryFrom f2 root2 = .ok t.root := by
  intro fuel
  induction fuel with
  | zero =>
    intro bytes st t h _
    exact POut.noConfusion h
  | succ f ih =>
    intro bytes st t h hinv
    simp only [fromBytesLoop] at h
    split at h
    · split at h
      · rename_i t0 ht0
        simp only [POut.ok.injEq] at h
        subst h
        exact hinv t0 ht0
      · exact POut.noConfusion h
    · split at h
      · exact POut.noConfusion h
      · exact POut.noConfusion h
      · exact POut.noConfusion h
      · rename_i tok rest hct
        split at h
        · rename_i st2 hstep
          refine ih rest st2 t h ?_
          intro t0 ht0
          rcases loopStep_result tf v lc bcid st tok st2 hstep with
            he | ⟨r, bc2, hres2, hget2, f2, root2, hrt2⟩
          · exact hinv t0 (he ▸ ht0)
          · rw [hres2] at ht0
            simp only [Option.some.injEq] at ht0
            subst ht0
            exact ⟨hget2, f2, root2, hrt2⟩
        · exact POut.noConfusion h
        · exact POut.noConfusion h
        · exact POut.noConfusion h

/-- Claim C5 (confirmed): for every blob whose parse succeeds, the boot CPU
of the resulting tree is the entry of the CPU map at the header's
`boot_cpuid_phys` key, and — the CPU map being keyed by each CPU's decoded
`reg` — its `reg` equals `boot_cpuid_phys`; and when the boot id is absent
from the CPU map at the final `End` step, the loop fails with the `BootCpu`
error. -/
theorem claim_C5 :
    (∀ dtb : List Nat, (fromBytes dtb).isOk = true →
        bootCpuReg (fromBytes dtb) = bootHeaderId dtb)
      ∧ (∀ (tf v lc bcid : Nat) (st : LoopSt) (name : NameRef) (root : RawNode)
          (r : RootNode),
          st.result = none → st.children = [[(name, root)]] →
          name.nodeName = [] → name.unitAddress = none →
          rootTryFrom tf root = .ok r → Map.get bcid r.cpus = none →
          loopStep tf v lc bcid st .tokEnd = .err (.bootCpu bcid)) := by
  constructor
  · intro dtb hok
    obtain ⟨t, ht⟩ := isOk_exists _ hok
    have ht2 := ht
    simp only [fromBytes, headerCase] at ht2
    split at ht2
    · exact POut.noConfusion ht2
    · exact POut.noConfusion ht2
    · exact POut.noConfusion ht2
    · rename_i hd hph
      obtain ⟨hget, f2, root2, hrt⟩ := loop_boot hd.strings
        (2 * hd.structSlice.lenU32s + 2) hd.version hd.lastComp hd.bootCpu
        (hd.structSlice.lenU32s + 1) hd.structSlice ⟨[], [[]], [], none⟩ t ht2
        (fun t0 ht0 => Option.noConfusion ht0)
      have hreg : t.bootCpu.reg = hd.bootCpu :=
        rootTryFrom_cpus f2 root2 t.root hrt hd.bootCpu t.bootCpu hget
      rw [ht]
      simp only [bootCpuReg, bootHeaderId, hph, hreg]
  · intro tf v lc bcid st name root r hres hch hn1 hn2 hrt hget
    simp [loopStep, hres, hch, hn1, hn2, hrt, hget]

theorem claim_C5_witness :
    bootCpuReg (fromBytes goodDtb) = bootHeaderId goodDtb :=
  claim_C5.1 goodDtb (by decide)

/-! ## Claim C1 -/

theorem errOf_eq {ε α : Type} (p : POut ε α) (e : ε) (h : POut.errOf p = some e) :
    p = .err e := by
  cases p with
  | ok a => exact Option.noConfusion h
  | err e2 =>
    simp only [POut.errOf, Option.some.injEq] at h
    rw [h]
  | crash => exact Option.noConfusion h
  | nofuel => exact Option.noConfusion h

theorem byteSplit32_length (v : Nat) : (byteSplit32 v).length = 4 := rfl

theorem bytesOfWords_cons (w : Nat) (l : List Nat) :
    bytesOfWords (w :: l) = byteSplit32 w ++ bytesOfWords l := rfl

theorem bytesOfWords_length : ∀ (l : List Nat), (bytesOfWords l).length = 4 * l.length := by
  intro l
  induction l with
  | nil => rfl
  | cons w rest ih =>
    rw [bytesOfWords_cons, List.length_append, byteSplit32_length, ih, List.length_cons]
    omega

theorem wordsOfBytes_cons (v : Nat) (rest : List Nat) (h : v < 2 ^ 32) :
    wordsOfBytes (byteSplit32 v ++ rest) = v :: wordsOfBytes rest := by
  show wordsOfBytes
      (v / 2 ^ 24 % 256 :: v / 2 ^ 16 % 256 :: v / 2 ^ 8 % 256 :: v % 256 :: rest)
    = v :: wordsOfBytes rest
  simp only [wordsOfBytes]
  congr 1
  unfold word32
  omega

theorem be32_split (v : Nat) (rest : List Nat) (h : v < 2 ^ 32) :
    be32 (byteSplit32 v ++ rest) = v := by
  show be32 (v / 2 ^ 24 % 256 :: v / 2 ^ 16 % 256 :: v / 2 ^ 8 % 256 :: v % 256 :: rest) = v
  simp only [be32]
  unfold word32
  omega

theorem words_bytes_roundtrip : ∀ (l : List Nat), (∀ w ∈ l, w < 2 ^ 32) →
    wordsOfBytes (bytesOfWords l) = l := by
  intro l
  induction l with
  | nil => intro _; rfl
  | cons w rest ih =>
    intro h
    rw [bytesOfWords_cons, wordsOfBytes_cons w _ (h w (by simp)),
      ih (fun x hx => h x (by simp [hx]))]

theorem minimalDtb_eq (v l b r : Nat) :
    minimalDtb v l b r = bytesOfWords (minWords v l b r) := by
  simp [minimalDtb, minWords, bytesOfWords, List.append_assoc]

theorem minimalDtb_header (version lastComp bootCpu rsvOff : Nat)
    (hv : version < 2 ^ 32) (hl : lastComp < 2 ^ 32) (hb : bootCpu < 2 ^ 32)
    (hr : rsvOff < 2 ^ 32) (hcomp : lastComp ≤ 17) :
    parseHeader (minimalDtb version lastComp bootCpu rsvOff)
      = .ok ⟨⟨[1, 0, 2, 9], 0⟩, [], version, lastComp, bootCpu⟩ := by
  have hwlt : ∀ w ∈ minWords version lastComp bootCpu rsvOff, w < 2 ^ 32 := by
    intro w hw
    simp only [minWords, List.mem_cons, List.not_mem_nil, or_false] at hw
    rcases hw with h|h|h|h|h|h|h|h|h|h|h|h|h|h <;> subst h <;> omega
  have hlen : (minimalDtb version lastComp bootCpu rsvOff).length = 56 := by
    rw [minimalDtb_eq, bytesOfWords_length]
    simp [minWords]
  have hwords : wordsOfBytes (minimalDtb version lastComp bootCpu rsvOff)
      = minWords version lastComp bootCpu rsvOff := by
    rw [minimalDtb_eq]
    exact words_bytes_roundtrip _ hwlt
  have hbe : be32 (minimalDtb version lastComp bootCpu rsvOff) = 0xD00DFEED := by
    rw [minimalDtb_eq]
    exact be32_split 0xD00DFEED _ (by norm_num)
  have hbe2 : be32 ((minimalDtb version lastComp bootCpu rsvOff).drop 4) = 56 := by
    rw [minimalDtb_eq]
    exact be32_split 56 _ (by norm_num)
  have htake : (minimalDtb version lastComp bootCpu rsvOff).take 56
      = minimalDtb version lastComp bootCpu rsvOff := by
    rw [← hlen]
    exact List.take_length _
  have hc17 : ¬(lastComp > 17) := by omega
  simp only [parseHeader, hlen, hbe, hbe2, htake, hwords, minWords, hc17]
  norm_num [U32BS.mkNew]
  intro h
  exact absurd h hc17

set_option maxHeartbeats 800000 in
theorem minimal_loop (version lastComp bootCpu : Nat) :
    fromBytesLoop [] 10 version lastComp bootCpu 5 ⟨[1, 0, 2, 9], 0⟩
      ⟨[], [[]], [], none⟩ = .err (.node .model) := by
  have t1 : consumeToken [] ⟨[1, 0, 2, 9], 0⟩
      = (.ok (.beginNode ⟨[], none⟩), ⟨[2, 9], 0⟩) := by decide
  have t2 : consumeToken [] ⟨[2, 9], 0⟩ = (.ok .endNode, ⟨[9], 0⟩) := by decide
  have t3 : consumeToken [] ⟨[9], 0⟩ = (.ok .tokEnd, ⟨[], 0⟩) := by decide
  have r : rootTryFrom 10 (rawNodeNew [] Map.empty) = .err .model :=
    errOf_eq _ _ (by decide)
  simp [fromBytesLoop, loopStep, t1, t2, t3, r, U32BS.isEmpty]

/-- Claim C1 (corrected): for every valid minimal DTB — a well-formed header
with any `u32` version, `last_comp_version ≤ 17`, boot CPU and reservation
offset, an empty root node and a single `End` token — `from_bytes` does *not*
succeed: root resolution demands a `model` property (and then `compatible`,
`/cpus`, a boot CPU), so the parse of the minimal blob always fails with
`Node(Model)`. -/
theorem claim_C1 (version lastComp bootCpu rsvOff : Nat)
    (hv : version < 2 ^ 32) (hl : lastComp < 2 ^ 32) (hb : bootCpu < 2 ^ 32)
    (hr : rsvOff < 2 ^ 32) (hcomp : lastComp ≤ 17) :
    fromBytes (minimalDtb version lastComp bootCpu rsvOff)
      = .err (.node .model) :=
  (congrArg headerCase
      (minimalDtb_header version lastComp bootCpu rsvOff hv hl hb hr hcomp)).trans
    (minimal_loop version lastComp bootCpu)

theorem claim_C1_witness :
    fromBytes (minimalDtb 17 16 0 0) = .err (.node .model) :=
  claim_C1 17 16 0 0 (by norm_num) (by norm_num) (by norm_num) (by norm_num)
    (by norm_num)

/-! ## Claim C9 -/

theorem consumeU32_mono (s : U32BS) :
    ((U32BS.consumeU32 s).2).padding = s.padding
      ∧ ((U32BS.consumeU32 s).2).lenU32s ≤ s.lenU32s := by
  by_cases hr : 1 ≤ s.remainingU32s
  · rw [consumeU32_spec s hr]
    refine ⟨rfl, ?_⟩
    simp [U32BS.lenU32s]
  · unfold U32BS.consumeU32
    rw [if_neg hr]
    exact ⟨rfl, le_refl _⟩

theorem consumeCStr_mono (s : U32BS) (nb : List Nat) (s2 : U32BS)
    (h : U32BS.consumeCStr s = some (nb, s2)) :
    s2.padding = s.padding ∧ s2.lenU32s ≤ s.lenU32s := by
  simp only [U32BS.consumeCStr] at h
  split at h
  · exact Option.noConfusion h
  · split at h
    · exact Option.noConfusion h
    · split at h
      · simp only [Option.some.injEq, Prod.mk.injEq] at h
        obtain ⟨h1, h2⟩ := h
        rw [← h2]
        refine ⟨rfl, ?_⟩
        simp [U32BS.lenU32s]
      · exact Option.noConfusion h

theorem takeBytes_mono (c : Nat) (s : U32BS) (v : U32BS) (s4 : U32BS)
    (h : U32BS.takeBytes c s = .ok (v, s4)) :
    s4.padding = s.padding ∧ s4.lenU32s ≤ s.lenU32s := by
  simp only [U32BS.takeBytes] at h
  split at h
  · split at h
    · simp only [POut.ok.injEq, Prod.mk.injEq] at h
      obtain ⟨h1, h2⟩ := h
      rw [← h2]
      refine ⟨rfl, ?_⟩
      simp [U32BS.lenU32s]
    · exact POut.noConfusion h
  · exact POut.noConfusion h

theorem consumeToken_adv (strings : List Nat) (s : U32BS)
    (h : 1 ≤ s.remainingU32s) :
    ((consumeToken strings s).2).padding = s.padding
      ∧ ((consumeToken strings s).2).lenU32s < s.lenU32s := by
  have hlen : 1 ≤ s.lenU32s := le_trans h (remaining_le_len s)
  have h1 : (U32BS.mk (s.words.drop 1) s.padding).lenU32s < s.lenU32s := by
    have hlen2 : 1 ≤ s.words.length := hlen
    simp only [U32BS.lenU32s, List.length_drop]
    omega
  simp only [consumeToken, consumeU32_spec s h]
  split
  · rcases hc : U32BS.consumeCStr ⟨s.words.drop 1, s.padding⟩ with _ | ⟨nameBytes, s2⟩
    · exact ⟨rfl, h1⟩
    · have hm := consumeCStr_mono _ nameBytes s2 hc
      dsimp only
      rcases hn : nameRefTryFrom nameBytes with e | n
      · exact ⟨hm.1, lt_of_le_of_lt hm.2 h1⟩
      · exact ⟨hm.1, lt_of_le_of_lt hm.2 h1⟩
  · split
    · exact ⟨rfl, h1⟩
    · split
      · rcases hc2 : U32BS.consumeU32 ⟨s.words.drop 1, s.padding⟩ with ⟨_ | lenp, s2⟩
        · have hm2 := consumeU32_mono ⟨s.words.drop 1, s.padding⟩
          rw [hc2] at hm2
          exact ⟨hm2.1, lt_of_le_of_lt hm2.2 h1⟩
        · have hm2 := consumeU32_mono ⟨s.words.drop 1, s.padding⟩
          rw [hc2] at hm2
          dsimp only
          rcases hc3 : U32BS.consumeU32 s2 with ⟨_ | nameoff, s3⟩
          · have hm3 := consumeU32_mono s2
            rw [hc3] at hm3
            exact ⟨hm3.1.trans hm2.1,
              lt_of_le_of_lt (le_trans hm3.2 hm2.2) h1⟩
          · have hm3 := consumeU32_mono s2
            rw [hc3] at hm3
            dsimp only
            rcases ht : U32BS.takeBytes lenp s3 with ⟨v, s4⟩ | u | _ | _
            · have hm4 := takeBytes_mono lenp s3 v s4 ht
              dsimp only
              rcases hcs : cstrUntilNul (strings.drop nameoff) with _ | name
              · exact ⟨(hm4.1.trans hm3.1).trans hm2.1,
                  lt_of_le_of_lt (le_trans hm4.2 (le_trans hm3.2 hm2.2)) h1⟩
              · exact ⟨(hm4.1.trans hm3.1).trans hm2.1,
                  lt_of_le_of_lt (le_trans hm4.2 (le_trans hm3.2 hm2.2)) h1⟩
            · exact ⟨hm3.1.trans hm2.1,
                lt_of_le_of_lt (le_trans hm3.2 hm2.2) h1⟩
            · exact ⟨hm3.1.trans hm2.1,
                lt_of_le_of_lt (le_trans hm3.2 hm2.2) h1⟩
            · exact ⟨hm3.1.trans hm2.1,
                lt_of_le_of_lt (le_trans hm3.2 hm2.2) h1⟩
      · split
        · exact ⟨rfl, h1⟩
        · split
          · exact ⟨rfl, h1⟩
          · exact ⟨rfl, h1⟩

theorem tokenSeq_ok (strings : List Nat) :
    ∀ (len : Nat) (s : U32BS) (fuel : Nat), s.padding = 0 → s.lenU32s = len →
      len < fuel → ∃ rs, tokenSeq strings fuel s = .ok rs := by
  intro len
  induction len using Nat.strong_induction_on with
  | _ len ih =>
    intro s fuel hp hlen hfuel
    rcases fuel with _ | f
    · omega
    by_cases he : s.words = []
    · refine ⟨[], ?_⟩
      simp [tokenSeq, U32BS.isEmpty, he]
    · have hlen1 : 1 ≤ s.lenU32s := by
        have hnz : s.words.length ≠ 0 := fun hc => he (List.length_eq_zero.1 hc)
        simp only [U32BS.lenU32s]
        omega
      have hrem : 1 ≤ s.remainingU32s := by
        have hrw : s.remainingU32s = s.lenU32s := by
          simp [U32BS.remainingU32s, hp]
        omega
      obtain ⟨hpad, hdec⟩ := consumeToken_adv strings s hrem
      rw [hp] at hpad
      obtain ⟨rs, hrs⟩ := ih ((consumeToken strings s).2.lenU32s) (by omega)
        (consumeToken strings s).2 f hpad rfl (by omega)
      refine ⟨(consumeToken strings s).1 :: rs, ?_⟩
      have hne : s.isEmpty = false := by
        cases hww : s.words with
        | nil => exact absurd hww he
        | cons x xs => simp [U32BS.isEmpty, hww]
      simp [tokenSeq, hne, hrs]

/-- Claim C9 counterexample: a constructible, nonempty `U32ByteSlice` (one
word whose logical length is one byte, so `padding = 3`) on which
`consume_token` does not advance the stream at all: `consume_u32` sees no
whole word remaining and fails without consuming, so the token iterator —
which runs while the slice is nonempty — yields `Err(EoF)` with an unchanged
stream forever.  The claimed strict advancement on every call, and hence the
claimed finiteness of the produced sequence for every input, fails. -/
theorem claim_C9_counterexample :
    U32BS.mkNew [83886080] 1 = some ⟨[83886080], 3⟩
      ∧ (U32BS.mk [83886080] 3).isEmpty = false
      ∧ consumeToken [] ⟨[83886080], 3⟩
          = ((.err .eof : POut TokenErr Token), ⟨[83886080], 3⟩) := by
  decide

/-- Claim C9 (corrected): whenever at least one whole word remains in the
stream — in particular on every word-aligned (`padding = 0`) nonempty slice —
the token decoder strictly shrinks the stream, and iteration over any
word-aligned structure block terminates with a finite sequence of outcomes
(each a token or a decode error).  On a nonempty slice with a partial final
word, however, `consume_u32` fails without consuming and the decoder does not
advance (see the counterexample), so advancement on *every* call, for *every*
input, does not hold. -/
theorem claim_C9 :
    (∀ (strings : List Nat) (s : U32BS), 1 ≤ s.remainingU32s →
        ((consumeToken strings s).2).lenU32s < s.lenU32s)
      ∧ (∀ (strings : List Nat) (s : U32BS) (fuel : Nat), s.padding = 0 →
          s.lenU32s < fuel → ∃ rs, tokenSeq strings fuel s = .ok rs) := by
  constructor
  · intro strings s h
    exact (consumeToken_adv strings s h).2
  · intro strings s fuel hp hf
    exact tokenSeq_ok strings s.lenU32s s fuel hp rfl hf

theorem claim_C9_witness :
    ((consumeToken [] ⟨[2, 9], 0⟩).2).lenU32s < (U32BS.mk [2, 9] 0).lenU32s
      ∧ ∃ rs, tokenSeq [] 3 ⟨[2, 9], 0⟩ = .ok rs := by
  constructor
  · exact claim_C9.1 [] ⟨[2, 9], 0⟩ (by decide)
  · exact claim_C9.2 [] ⟨[2, 9], 0⟩ 3 rfl (by decide)

theorem claim_C4_witness :
    U32BS.consumeCells (2 + 3) ⟨[7, 9, 0, 4, 0], 0⟩
        = (some (7 * 2 ^ 32 + 9), ⟨[], 0⟩, true)
      ∧ ((U32BS.intoCellsSlice [2, 1] ⟨[1, 2, 3, 4, 5, 6], 0⟩).isOk = true
          ↔ U32BS.lenU32s ⟨[1, 2, 3, 4, 5, 6], 0⟩ % [2, 1].sum = 0) :=
  ⟨(claim_C4.2.2.2.1 2 ⟨[7, 9, 0, 4, 0], 0⟩ (by decide)).trans (by decide),
   claim_C4.2.2.2.2 [2, 1] ⟨[1, 2, 3, 4, 5, 6], 0⟩ (by decide) rfl⟩

end DeviceTree
